import Mathlib

/-!
Verification development for the ascii-art generation pipeline.

The code is embedded shallowly over `Line := List Char` (one line of text)
and `List Line` (a block).  JavaScript strings are modelled as `List Char`;
the JS float arithmetic on line centers (`leading + trimmed.length / 2`)
is modelled exactly in half-character units (`center2 = 2*leading + len`),
so every comparison and `Math.round` is reproduced without rationals.
JS whitespace (as used by `trim`/`trimStart`/`trimEnd` and `\s`) is
modelled by its ASCII fragment; all inputs of interest are ASCII.
-/

set_option maxRecDepth 4000

namespace Ascii

abbrev Line := List Char

instance {α β : Type} [DecidableEq α] [DecidableEq β] : DecidableEq (Except α β)
  | .ok a, .ok b => decidable_of_iff (a = b) (by simp)
  | .ok _, .error _ => isFalse (by simp)
  | .error _, .ok _ => isFalse (by simp)
  | .error a, .error b => decidable_of_iff (a = b) (by simp)

def str (s : String) : Line := s.toList

/-- ASCII fragment of the JS whitespace class used by `trim` and `\s`. -/
def wsChar (c : Char) : Bool :=
  c = ' ' || c = '\t' || c = '\n' || c = '\r' || c = '\x0b' || c = '\x0c'

/-- JS `String.prototype.trimStart`. -/
def trimStart (l : Line) : Line := l.dropWhile wsChar

/-- JS `String.prototype.trimEnd`: remove the maximal whitespace suffix
(structural recursion form). -/
def trimEnd : Line → Line
  | [] => []
  | c :: t =>
    match trimEnd t with
    | [] => if wsChar c then [] else [c]
    | r => c :: r

/-- JS `String.prototype.trim`. -/
def trim (l : Line) : Line := trimEnd (trimStart l)

/-- JS `line.trim() === ""`. -/
def isBlank (l : Line) : Bool := (trim l).isEmpty

/-- JS `raw.split("\n")` (note: `"".split("\n")` is `[""]`). -/
def splitNl : Line → List Line
  | [] => [[]]
  | c :: rest =>
    match splitNl rest with
    | [] => [[]]
    | l :: ls => if c = '\n' then [] :: l :: ls else (c :: l) :: ls

/-- JS `lines.join("\n")`. -/
def joinNl : List Line → Line
  | [] => []
  | [l] => l
  | l :: l' :: ls => l ++ '\n' :: joinNl (l' :: ls)

/-- The two `while` loops of `normalizeArt` that shift leading and pop
trailing blank lines. -/
def dropBlankEdges (ls : List Line) : List Line :=
  ((ls.dropWhile isBlank).reverse.dropWhile isBlank).reverse

/-- Leading-whitespace count `lines[i].length - lines[i].trimStart().length`. -/
def wsLeading (l : Line) : Nat := l.length - (trimStart l).length

/-- Twice the JS center `leading + trimmed.length / 2` of a line
(half-character units, so the JS float value is represented exactly). -/
def center2 (l : Line) : Nat := 2 * wsLeading l + (trim l).length

/-- The `centers` array of `normalizeArt`, restricted to the center values
(one entry per non-blank line, in line order). -/
def centersOf (ls : List Line) : List Nat :=
  (ls.filter (fun l => !isBlank l)).map center2

/-- Insertion of one element into a sorted list, ascending. -/
def insertSorted (a : Nat) : List Nat → List Nat
  | [] => [a]
  | b :: bs => if a ≤ b then a :: b :: bs else b :: insertSorted a bs

/-- Ascending sort; models JS `.sort((a, b) => a - b)` on numbers. -/
def insSort : List Nat → List Nat
  | [] => []
  | a :: as => insertSorted a (insSort as)

/-- Twice the JS `median`: `otherCenters` drops the first non-blank line's
center, sorts ascending, and indexes at `floor(length / 2)`. -/
def medianOf (ls : List Line) : Nat :=
  let oc := insSort ((centersOf ls).drop 1)
  oc.getD (oc.length / 2) 0

/-- One step of the centering-repair loop of `normalizeArt`.  The JS test
`Math.abs(curCenter - median) > 3` becomes `6 < Nat.dist center2 median2`
in half-units, and `Math.max(0, Math.round(median - trimmed.length / 2))`
becomes `(median2 + 1 - len) / 2` (truncated ℕ subtraction gives the
`max 0`, and `(x + 1) / 2` is `Math.round` of `x / 2`, half away from
negative infinity). -/
def repairLine (m2 : Nat) (l : Line) : Line :=
  if isBlank l then l
  else
    let t := trim l
    let c2 := 2 * wsLeading l + t.length
    if 6 < Nat.dist c2 m2 then List.replicate ((m2 + 1 - t.length) / 2) ' ' ++ t
    else l

/-- Leading-space count per the regex `/^ */` (spaces only). -/
def spaceLeading (l : Line) : Nat := (l.takeWhile (fun c => c = ' ')).length

/-- The `minIndent` computation; `none` models the untouched `Infinity`
(no non-blank line). -/
def minIndentOf (ls : List Line) : Option Nat :=
  match (ls.filter (fun l => !isBlank l)).map spaceLeading with
  | [] => none
  | x :: xs => some (xs.foldl Nat.min x)

/-- The common-indent stripping step (`isFinite(minIndent) && minIndent > 0`). -/
def stripIndent (ls : List Line) : List Line :=
  match minIndentOf ls with
  | none => ls
  | some m => if 0 < m then ls.map (List.drop m) else ls

/-- `Math.max(...lines.map((l) => l.length))` (the call sites have
non-empty `lines`, where the fold below agrees with `Math.max`). -/
def maxLenOf (ls : List Line) : Nat := (ls.map List.length).foldl Nat.max 0

/-- JS `l.padEnd(n)`. -/
def padTo (n : Nat) (l : Line) : Line := l ++ List.replicate (n - l.length) ' '

/-- The edge-trimming prefix of `normalizeArt`: drop blank boundary lines,
right-trim every line. -/
def linePrep (input : List Line) : List Line :=
  (dropBlankEdges input).map trimEnd

/-- `normalizeArt` after `split("\n")` and before `join("\n")`. -/
def normalizeLines (input : List Line) : List Line :=
  let ls := linePrep input
  if ls.length < 2 then ls
  else if (centersOf ls).length < 3 then ls
  else
    let m2 := medianOf ls
    let ls3 := ls.map (repairLine m2)
    let ls4 := stripIndent ls3
    ls4.map (padTo (maxLenOf ls4))

/-- `normalizeArt` from the route source (the whole pipeline on a string). -/
def normalizeArt (raw : Line) : Line := joinNl (normalizeLines (splitNl raw))

/-- The edge-trimmed, right-trimmed line list `normalizeArt` works on. -/
def prepLines (raw : Line) : List Line := linePrep (splitNl raw)

/-- ASCII letter, for the case-insensitive `[a-z]*` of the opening-fence
regex `/^```[a-z]*\n?/i`. -/
def asciiLetter (c : Char) : Bool :=
  ('a' ≤ c && c ≤ 'z') || ('A' ≤ c && c ≤ 'Z')

/-- `text.replace(/^```[a-z]*\n?/i, "")`: anchored at the start, so at most
the leading fence marker, its language tag and one following newline go. -/
def stripFrontFence (s : Line) : Line :=
  if s.take 3 = str "\x60\x60\x60" then
    match (s.drop 3).dropWhile asciiLetter with
    | '\n' :: rest => rest
    | r => r
  else s

/-- Whether the suffix starting here matches `/\n?```\s*$/` completely. -/
def fenceTailHere (s : Line) : Bool :=
  let core := fun (t : Line) => t.take 3 = str "\x60\x60\x60" && (t.drop 3).all wsChar
  match s with
  | '\n' :: rest => core rest
  | _ => core s

/-- `text.replace(/\n?```\s*$/, "")`: remove the leftmost suffix made of an
optional newline, a closing fence and trailing whitespace. -/
def dropFenceSuffix : Line → Line
  | [] => []
  | c :: rest => if fenceTailHere (c :: rest) then [] else c :: dropFenceSuffix rest

/-- `stripCodeFences` from the route sources (identical in both). -/
def stripCodeFences (text : Line) : Line :=
  trim (dropFenceSuffix (stripFrontFence text))

/-! ### Prompt builder

The literal texts of `DENSITY_INSTRUCTIONS` (identical in both route
variants) and the two system-prompt preambles.  `\x27`, `\x60`, `\x7b`,
`\x7d` are the apostrophe, backtick and brace characters of the source. -/

def sparseBlock : Line := str "\nStyle: Clean line-art with open whitespace.\n- Use only structural characters: / \\ | - _ ( ) \x27 \x60 . :\n- Leave large areas as blank space.\n- Focus on crisp outlines and silhouettes.\n- Minimal interior fill — let the shape breathe."

def mediumBlock : Line := str "\nStyle: Balanced detail with shading.\n- Use structural characters for edges: / \\ | - _ ( ) [ ]\n- Use a brightness gradient for shading: .  :  ;  =  +  *  #  @\n  (. = lightest, @ = darkest)\n- Fill interior regions with appropriate density.\n- Create visible depth through lighter/darker zones."

def denseBlock : Line := str "\nStyle: Maximum detail, photo-like density.\n- Use the full ASCII gradient for shading:\n  \x60 . - \x27 : _ , ; ! ~ + = ^ * ? / \\ | ( ) [ ] \x7b \x7d # % @ & $ W M\n- Every character should contribute to shading or texture.\n- Create smooth tonal gradients from highlights to shadows.\n- Fill the entire bounding area — minimal blank space.\n- Use character density to simulate light, shadow, and volume."

/-- `DENSITY_INSTRUCTIONS[density]` — record lookup by string key, `none`
when the key is not one of the three declared densities. -/
def densityInstructions (d : Line) : Option Line :=
  if d = str "sparse" then some sparseBlock
  else if d = str "medium" then some mediumBlock
  else if d = str "dense" then some denseBlock
  else none

/-- Preamble of `buildSystemPrompt` in the single-provider (ARK) route,
up to the `$\x7bDENSITY_INSTRUCTIONS[density]\x7d` interpolation point. -/
def arkPreamble : Line := str "You are an ASCII art generator. Output ONLY raw ASCII art — no markdown, no code fences, no backticks, no explanation, no titles.\n\nRULES:\n1. The art must be 20-30 lines tall and 40-70 characters wide.\n2. Use only printable ASCII characters (codes 32-126).\n3. The subject must be clearly recognizable with correct proportions.\n4. Include the subject\x27s most distinctive features so it is instantly identifiable.\n5. Left-align all lines — do NOT add leading spaces for centering. The leftmost character of the art should start at column 0 on every line that has content.\n\nSHADING (light to dark): . : ; + = * # @ % &\nOutlines: / \\ | - _ ( ) < > [ ]\n"

/-- Preamble of `buildSystemPrompt` in the multi-provider route. -/
def routePreamble : Line := str "You are a world-class ASCII art artist. You produce museum-quality ASCII art.\n\nRULES — follow these exactly:\n1. Output ONLY raw ASCII art. No markdown, no code fences, no backticks, no explanation, no title, no labels.\n2. The art must be 60-80 lines tall and 80-120 characters wide.\n3. Every line must be the same width (pad with spaces on the right).\n4. Use only printable ASCII characters (codes 32-126).\n5. The subject must be clearly recognizable with accurate proportions and anatomy.\n\nTECHNIQUE:\n- Build the outline first with structural characters: / \\ | - _ ( ) < >\n- Use character weight/density to create shading gradients.\n- Lighter areas: . \x60 \x27 - : (fewer ink pixels per character)\n- Darker areas: # @ & % W M $ (more ink pixels per character)\n- Create depth with consistent light direction (top-left light source).\n- Use contour lines that follow the 3D form of the subject.\n- Add fine details: texture, patterns, subtle features.\n"

/-- `buildSystemPrompt` of the ARK route.  The runtime key may be any
string (the TS `as Density` cast is unchecked); a missing record entry
interpolates as the literal text `undefined`. -/
def arkBuildSystemPrompt (d : Line) : Line :=
  arkPreamble ++ (densityInstructions d).getD (str "undefined")

/-- `buildSystemPrompt` of the multi-provider route. -/
def routeBuildSystemPrompt (d : Line) : Line :=
  routePreamble ++ (densityInstructions d).getD (str "undefined")

/-! ### Provider orchestration -/

/-- JS `msg.includes(sub)`: `sub` occurs contiguously in `s`. -/
def includes (sub : Line) : Line → Bool
  | [] => sub.isEmpty
  | c :: rest => sub.isPrefixOf (c :: rest) || includes sub rest

/-- The `isRetryable` classification inside `generateWithGemini`. -/
def isRetryable (msg : Line) : Bool :=
  includes (str "429") msg || includes (str "quota") msg ||
  includes (str "Too Many Requests") msg ||
  includes (str "location is not supported") msg ||
  includes (str "not available") msg || includes (str "is not found") msg

/-- Outcome of one Gemini model call in the environment: the text of
`result.response.text()`, or a thrown error carrying its message. -/
inductive GemOut where
  | ok (text : Line)
  | thrown (msg : Line)
deriving DecidableEq, Repr

/-- Outcome of the one Deepseek chat-completion call:
`response.choices[0]?.message?.content` (possibly missing), or a thrown
error. -/
inductive DsOut where
  | ok (content : Option Line)
  | thrown (msg : Line)
deriving DecidableEq, Repr

/-- Observable effects of the multi-provider `POST`: provider calls (with
the prompts sent) and `sleep` suspensions. -/
inductive Ev where
  | dsCall (sys user : Line)
  | gemAttempt (model : Line) (sys user : Line)
  | sleepEv (ms : Nat)
deriving DecidableEq, Repr

def GEMINI_MODELS : List Line := [str "gemini-2.0-flash", str "gemini-2.0-flash-lite"]

/-- The `for` loop of `generateWithGemini`, over the remaining
(model, outcome) pairs; `last` is the current `lastError`.  On success the
text is fence-stripped and returned.  On failure the error is recorded
and — retryable and not at the last candidate — a 3000 ms sleep happens;
in every failure case the loop proceeds to the next candidate, and past
the last candidate `lastError` is thrown. -/
def geminiLoop (sys user : Line) : List (Line × GemOut) → Line → List Ev × Except Line Line
  | [], last => ([], .error last)
  | (name, o) :: rest, _ =>
    match o with
    | .ok t => ([.gemAttempt name sys user], .ok (stripCodeFences t))
    | .thrown m =>
      let evs : List Ev :=
        if isRetryable m && !rest.isEmpty then [.gemAttempt name sys user, .sleepEv 3000]
        else [.gemAttempt name sys user]
      let r := geminiLoop sys user rest m
      (evs ++ r.1, r.2)

/-- `generateWithGemini`: tries the two `GEMINI_MODELS` in order; the
environment supplies one outcome per candidate model. -/
def generateWithGemini (sys user : Line) (g : GemOut × GemOut) : List Ev × Except Line Line :=
  geminiLoop sys user [(GEMINI_MODELS.getD 0 [], g.1), (GEMINI_MODELS.getD 1 [], g.2)] []

/-- `generateWithDeepseek`: one chat-completion call; a missing content
payload is defaulted to the empty string (`?? ""`) and fence-stripped. -/
def generateWithDeepseek (sys user : Line) (o : DsOut) : List Ev × Except Line Line :=
  ([.dsCall sys user],
    match o with
    | .ok c => .ok (stripCodeFences (c.getD []))
    | .thrown m => .error m)

/-- Response body: an error message or the generated ascii art. -/
inductive RBody where
  | errB (msg : Line)
  | asciiB (text : Line)
deriving DecidableEq, Repr

/-- An HTTP response of either route: `NextResponse.json({...}, {status})`. -/
structure Response where
  status : Nat
  body : RBody
deriving DecidableEq, Repr

/-- The `prompt` field of the parsed request body. -/
inductive PromptVal where
  | absent
  | nonstr
  | pstr (s : Line)
deriving DecidableEq, Repr

/-- A parsed request body: the `prompt` field and the `density` field
(`none` models an absent/undefined density, which alone triggers the
destructuring default `"medium"`; any present value is used as the lookup
key unchanged). -/
structure Req where
  prompt : PromptVal
  density : Option Line
deriving DecidableEq, Repr

/-- The validation test `!prompt || typeof prompt !== "string"`. -/
def promptInvalid : PromptVal → Bool
  | .absent => true
  | .nonstr => true
  | .pstr s => s.isEmpty

/-- Extract the prompt string once validation passed. -/
def promptStr : PromptVal → Line
  | .pstr s => s
  | _ => []

/-- Process environment and provider behaviour for the multi-provider
route: which credentials are configured, and the outcome each provider
call would produce. -/
structure RouteEnv where
  deepseekKey : Option Line
  geminiKey : Option Line
  ds : DsOut
  gem : GemOut × GemOut

def routeUserPrompt (s : Line) : Line :=
  str "Create a high-quality, detailed ASCII art of: " ++ s.take 500 ++
  str "\n\nRemember: output ONLY the raw ASCII art, no code fences, no explanation."

/-- `POST` of the multi-provider route.  Returns the HTTP response plus
the ordered list of observable effects (provider calls and sleeps).
Uncaught provider errors reach the outer `catch`, which answers 500 with
the error's message. -/
def routePOST (env : RouteEnv) (req : Req) : Response × List Ev :=
  if env.deepseekKey.isNone && env.geminiKey.isNone then
    (⟨500, .errB (str "No API key configured. Add DEEPSEEK_API_KEY or GOOGLE_GEMINI_API_KEY to .env.local")⟩, [])
  else if promptInvalid req.prompt then
    (⟨400, .errB (str "A prompt is required")⟩, [])
  else
    let sys := routeBuildSystemPrompt (req.density.getD (str "medium"))
    let user := routeUserPrompt (promptStr req.prompt)
    match env.deepseekKey with
    | some _ =>
      let d := generateWithDeepseek sys user env.ds
      (match d.2 with
       | .ok a => (⟨200, .asciiB a⟩, d.1)
       | .error m =>
         match env.geminiKey with
         | none => (⟨500, .errB m⟩, d.1)
         | some _ =>
           let g := generateWithGemini sys user env.gem
           ((match g.2 with
             | .ok a => ⟨200, .asciiB a⟩
             | .error m2 => ⟨500, .errB m2⟩), d.1 ++ g.1))
    | none =>
      match env.geminiKey with
      | some _ =>
        let g := generateWithGemini sys user env.gem
        ((match g.2 with
          | .ok a => ⟨200, .asciiB a⟩
          | .error m2 => ⟨500, .errB m2⟩), g.1)
      | none => (⟨500, .errB (str "All providers failed.")⟩, [])

/-! ### The single-provider (ARK) route -/

/-- Process environment for the ARK route. -/
structure ArkEnv where
  arkKey : Option Line
  arkModel : Option Line
  outcome : DsOut

/-- The request data sent on the single provider call, when one is made. -/
structure CallInfo where
  sys : Line
  user : Line
  model : Line
deriving DecidableEq, Repr

def arkUserPrompt (s : Line) : Line :=
  str "Create ASCII art of: " ++ s.take 500 ++
  str "\n\nMake it instantly recognizable. Output ONLY the ASCII art, nothing else."

/-- The error classification of the ARK route's `catch` block. -/
def classifyArkError (m : Line) : Response :=
  if includes (str "401") m || includes (str "Unauthorized") m then
    ⟨401, .errB (str "Invalid API key. Check your ARK_API_KEY.")⟩
  else if includes (str "429") m || includes (str "rate") m then
    ⟨429, .errB (str "Rate limit reached. Wait a moment and try again.")⟩
  else if includes (str "timed out") m || includes (str "timeout") m || includes (str "ETIMEDOUT") m then
    ⟨504, .errB (str "Generation took too long. Try a simpler prompt.")⟩
  else ⟨500, .errB m⟩

/-- `POST` of the single-provider (ARK) route.  The second component is
the provider call made, if any (`none` = no network I/O). -/
def arkPOST (env : ArkEnv) (req : Req) : Response × Option CallInfo :=
  match env.arkKey with
  | none => (⟨500, .errB (str "ARK_API_KEY is not configured. Add it to .env.local")⟩, none)
  | some _ =>
    if promptInvalid req.prompt then (⟨400, .errB (str "A prompt is required")⟩, none)
    else
      let sys := arkBuildSystemPrompt (req.density.getD (str "medium"))
      let ci : CallInfo := ⟨sys, arkUserPrompt (promptStr req.prompt),
        env.arkModel.getD (str "deepseek-v3-2-251201")⟩
      match env.outcome with
      | .ok content =>
        let text := content.getD []
        if text.isEmpty then
          (⟨500, .errB (str "Model returned an empty response. Try again.")⟩, some ci)
        else (⟨200, .asciiB (normalizeArt (stripCodeFences text))⟩, some ci)
      | .thrown m => (classifyArkError m, some ci)

/-! ## Theorems about the provider orchestrator -/

/-- **C4** (confirmed): with both providers configured, the first
(Deepseek) failing with a retryable rate-limit error and the second
(Gemini) succeeding on its first candidate model, `POST` returns exactly
one success whose body is the second provider's fence-stripped output;
no error response is surfaced. -/
theorem c4_provider_fallback (k g s m raw : Line) (d : Option Line) (o2 : GemOut)
    (hs : s ≠ []) (_hretry : isRetryable m = true) :
    routePOST ⟨some k, some g, .thrown m, (.ok raw, o2)⟩ ⟨.pstr s, d⟩ =
      (⟨200, .asciiB (stripCodeFences raw)⟩,
        [.dsCall (routeBuildSystemPrompt (d.getD (str "medium"))) (routeUserPrompt s),
         .gemAttempt (str "gemini-2.0-flash")
           (routeBuildSystemPrompt (d.getD (str "medium"))) (routeUserPrompt s)]) := by
  have hse : s.isEmpty = false := by
    cases s with
    | nil => exact absurd rfl hs
    | cons a l => rfl
  simp [routePOST, promptInvalid, hse, generateWithDeepseek, generateWithGemini,
    geminiLoop, GEMINI_MODELS, promptStr]

/-- Witness for `c4_provider_fallback` at a concrete request. -/
theorem c4_witness :
    routePOST ⟨some (str "k"), some (str "g"), .thrown (str "429"),
        (.ok (str "ART"), .ok (str "B"))⟩ ⟨.pstr (str "cat"), none⟩ =
      (⟨200, .asciiB (stripCodeFences (str "ART"))⟩,
        [.dsCall (routeBuildSystemPrompt ((none : Option Line).getD (str "medium")))
           (routeUserPrompt (str "cat")),
         .gemAttempt (str "gemini-2.0-flash")
           (routeBuildSystemPrompt ((none : Option Line).getD (str "medium")))
           (routeUserPrompt (str "cat"))]) :=
  c4_provider_fallback (str "k") (str "g") (str "cat") (str "429") (str "ART")
    none (.ok (str "B")) (by decide) (by decide)

/-- **C5** (code bug): evaluation of the multi-provider `POST` at the
failing input.  Deepseek is configured and returns a missing text payload
(`choices[0]?.message?.content` undefined); the route surfaces a 200
success with empty `ascii` — the `?? ""` default — instead of treating it
as an empty-response failure and moving on to the configured Gemini
provider, which is never called. -/
theorem c5_empty_payload_bug :
    routePOST ⟨some (str "k"), some (str "g"), .ok none, (.ok (str "A"), .ok (str "B"))⟩
        ⟨.pstr (str "cat"), none⟩ =
      (⟨200, .asciiB []⟩,
        [.dsCall (routeBuildSystemPrompt (str "medium")) (routeUserPrompt (str "cat"))]) := by
  rfl

/-- **C6** (counterexample): the configuration-error response and a
generic runtime-failure response carry the same status 500, so the
configuration status is not distinct from runtime failures. -/
theorem c6_counterexample :
    (routePOST ⟨none, none, .ok none, (.ok [], .ok [])⟩ ⟨.pstr (str "cat"), none⟩).1 =
      ⟨500, .errB (str "No API key configured. Add DEEPSEEK_API_KEY or GOOGLE_GEMINI_API_KEY to .env.local")⟩ ∧
    (routePOST ⟨some (str "k"), none, .thrown (str "boom"), (.ok [], .ok [])⟩
        ⟨.pstr (str "cat"), none⟩).1 = ⟨500, .errB (str "boom")⟩ := by
  decide

/-- **C6** (amended): with no provider credential configured, both route
variants fail immediately with the configuration-error message and
status 500, making no provider call; that 500 status is shared with
generic runtime failures, so only the message distinguishes them. -/
theorem c6_no_credentials (ds : DsOut) (gem : GemOut × GemOut) (am : Option Line) :
    (∀ req : Req, routePOST ⟨none, none, ds, gem⟩ req =
      (⟨500, .errB (str "No API key configured. Add DEEPSEEK_API_KEY or GOOGLE_GEMINI_API_KEY to .env.local")⟩, [])) ∧
    (∀ req : Req, arkPOST ⟨none, am, ds⟩ req =
      (⟨500, .errB (str "ARK_API_KEY is not configured. Add it to .env.local")⟩, none)) := by
  exact ⟨fun req => rfl, fun req => rfl⟩

/-- **C7** (confirmed): with at least one credential configured, a request
whose `prompt` is absent or not a string gets the 400 validation error
and no provider call is made, in both route variants. -/
theorem c7_validation (env : RouteEnv) (req : Req)
    (hkey : env.deepseekKey ≠ none ∨ env.geminiKey ≠ none)
    (hp : req.prompt = .absent ∨ req.prompt = .nonstr) :
    routePOST env req = (⟨400, .errB (str "A prompt is required")⟩, []) ∧
    ∀ aenv : ArkEnv, aenv.arkKey ≠ none →
      arkPOST aenv req = (⟨400, .errB (str "A prompt is required")⟩, none) := by
  have hpi : promptInvalid req.prompt = true := by
    rcases hp with hp | hp <;> rw [hp] <;> rfl
  constructor
  · obtain ⟨dk, gk, ds, gem⟩ := env
    have hk : (dk.isNone && gk.isNone) = false := by
      rcases hkey with h | h
      · cases dk with
        | none => exact absurd rfl h
        | some _ => rfl
      · cases gk with
        | none => exact absurd rfl h
        | some _ => cases dk <;> rfl
    simp [routePOST, hk, hpi]
  · intro aenv hk
    obtain ⟨ak, am, o⟩ := aenv
    cases ak with
    | none => exact absurd rfl hk
    | some k => simp [arkPOST, hpi]

/-- Witness for `c7_validation` at a concrete environment and request. -/
theorem c7_witness :
    routePOST ⟨some (str "k"), none, .ok none, (.ok [], .ok [])⟩ ⟨.absent, none⟩ =
      (⟨400, .errB (str "A prompt is required")⟩, []) ∧
    arkPOST ⟨some (str "k2"), none, .ok none⟩ ⟨.absent, none⟩ =
      (⟨400, .errB (str "A prompt is required")⟩, none) :=
  have h := c7_validation ⟨some (str "k"), none, .ok none, (.ok [], .ok [])⟩
    ⟨.absent, none⟩ (Or.inl (by simp)) (Or.inl rfl)
  ⟨h.1, h.2 ⟨some (str "k2"), none, .ok none⟩ (by simp)⟩

/-- **C3** (counterexample): a non-retryable failure of the first Gemini
candidate model does not abort the provider — the second candidate model
of the same provider is still attempted (without the 3-second backoff)
and its success is returned. -/
theorem c3_counterexample :
    isRetryable (str "401 Unauthorized") = false ∧
    generateWithGemini (str "S") (str "U")
        (.thrown (str "401 Unauthorized"), .ok (str "ART")) =
      ([.gemAttempt (str "gemini-2.0-flash") (str "S") (str "U"),
        .gemAttempt (str "gemini-2.0-flash-lite") (str "S") (str "U")],
       .ok (str "ART")) := by
  decide

/-- **C3** (amended): inside the Gemini provider, after a failure of the
first candidate model the loop always proceeds to the second candidate —
with a 3000 ms sleep exactly when the failure is retryable, and
immediately when it is not; and when Deepseek (the first provider) throws
any error while Gemini is configured, `POST` moves to the Gemini provider
without any sleep in between. -/
theorem c3_retry_and_fallback (sys user m : Line) (o2 : GemOut)
    (k g s : Line) (d : Option Line) (gp : GemOut × GemOut) (hs : s ≠ []) :
    (isRetryable m = true →
      (generateWithGemini sys user (.thrown m, o2)).1 =
        [.gemAttempt (str "gemini-2.0-flash") sys user, .sleepEv 3000,
         .gemAttempt (str "gemini-2.0-flash-lite") sys user]) ∧
    (isRetryable m = false →
      (generateWithGemini sys user (.thrown m, o2)).1 =
        [.gemAttempt (str "gemini-2.0-flash") sys user,
         .gemAttempt (str "gemini-2.0-flash-lite") sys user]) ∧
    routePOST ⟨some k, some g, .thrown m, gp⟩ ⟨.pstr s, d⟩ =
      ((match (generateWithGemini (routeBuildSystemPrompt (d.getD (str "medium")))
            (routeUserPrompt s) gp).2 with
        | .ok a => ⟨200, .asciiB a⟩
        | .error m2 => ⟨500, .errB m2⟩),
       .dsCall (routeBuildSystemPrompt (d.getD (str "medium"))) (routeUserPrompt s) ::
         (generateWithGemini (routeBuildSystemPrompt (d.getD (str "medium")))
            (routeUserPrompt s) gp).1) := by
  have hse : s.isEmpty = false := by
    cases s with
    | nil => exact absurd rfl hs
    | cons a l => rfl
  refine ⟨fun hr => ?_, fun hr => ?_, ?_⟩
  · cases o2 <;> simp [generateWithGemini, geminiLoop, GEMINI_MODELS, hr]
  · cases o2 <;> simp [generateWithGemini, geminiLoop, GEMINI_MODELS, hr]
  · simp only [routePOST, promptInvalid, hse, Bool.false_eq_true, if_false,
      Option.isNone_some, Bool.and_self, generateWithDeepseek, promptStr]
    cases hg : (generateWithGemini (routeBuildSystemPrompt (d.getD (str "medium")))
        (routeUserPrompt s) gp).2 <;> simp [hg]

/-- Witness for `c3_retry_and_fallback`: retryable first failure sleeps
3000 ms before the second candidate. -/
theorem c3_witness :
    (generateWithGemini (str "S") (str "U") (.thrown (str "429"), .ok (str "A"))).1 =
      [.gemAttempt (str "gemini-2.0-flash") (str "S") (str "U"), .sleepEv 3000,
       .gemAttempt (str "gemini-2.0-flash-lite") (str "S") (str "U")] :=
  (c3_retry_and_fallback (str "S") (str "U") (str "429") (.ok (str "A"))
    (str "k") (str "g") (str "cat") none ((.ok (str "A")), .ok (str "B"))
    (by decide)).1 (by decide)

/-- **C9** (counterexample): a present-but-invalid `density` is not
treated as `"medium"`: the system prompt actually sent interpolates the
literal text `undefined` and differs from the medium prompt. -/
theorem c9_counterexample :
    (arkPOST ⟨some (str "k"), none, .ok (some (str "A"))⟩
        ⟨.pstr (str "cat"), some (str "chunky")⟩).2 =
      some ⟨arkBuildSystemPrompt (str "chunky"), arkUserPrompt (str "cat"),
        str "deepseek-v3-2-251201"⟩ ∧
    arkBuildSystemPrompt (str "chunky") ≠ arkBuildSystemPrompt (str "medium") := by
  have e1 : arkBuildSystemPrompt (str "chunky") = arkPreamble ++ str "undefined" := by
    unfold arkBuildSystemPrompt
    rw [show densityInstructions (str "chunky") = none from by decide]
    rfl
  have e2 : arkBuildSystemPrompt (str "medium") = arkPreamble ++ mediumBlock := by
    unfold arkBuildSystemPrompt
    rw [show densityInstructions (str "medium") = some mediumBlock from by decide]
    rfl
  refine ⟨by rfl, fun h => ?_⟩
  rw [e1, e2] at h
  exact absurd (List.append_cancel_left h) (by decide)

/-- **C9** (amended): an absent `density` defaults to `"medium"` (the
system prompt sent equals the medium one); a present value outside
sparse/medium/dense yields the preamble followed by the literal text
`undefined`, which differs from the medium prompt. -/
theorem c9_density_default :
    (∀ (ak : Option Line) (am : Option Line) (o : DsOut) (s k : Line),
      ak = some k → s ≠ [] →
      (arkPOST ⟨ak, am, o⟩ ⟨.pstr s, none⟩).2 =
        some ⟨arkBuildSystemPrompt (str "medium"), arkUserPrompt s,
          am.getD (str "deepseek-v3-2-251201")⟩) ∧
    (∀ dval : Line, densityInstructions dval = none →
      arkBuildSystemPrompt dval = arkPreamble ++ str "undefined" ∧
      arkBuildSystemPrompt dval ≠ arkBuildSystemPrompt (str "medium")) := by
  constructor
  · intro ak am o s k hak hs
    have hse : s.isEmpty = false := by
      cases s with
      | nil => exact absurd rfl hs
      | cons a l => rfl
    subst hak
    cases o with
    | ok content =>
      simp only [arkPOST, promptInvalid, hse, Bool.false_eq_true, if_false, promptStr]
      cases hc : (content.getD []).isEmpty <;> simp [hc]
    | thrown msg => simp [arkPOST, promptInvalid, hse, promptStr]
  · intro dval hd
    have he : arkBuildSystemPrompt dval = arkPreamble ++ str "undefined" := by
      unfold arkBuildSystemPrompt
      rw [hd]
      rfl
    refine ⟨he, ?_⟩
    intro h
    rw [he] at h
    unfold arkBuildSystemPrompt at h
    have h2 := List.append_cancel_left h
    exact absurd h2 (by decide)

/-- Witness for `c9_density_default` at a concrete request. -/
theorem c9_witness :
    (arkPOST ⟨some (str "k"), none, .ok (some (str "A"))⟩ ⟨.pstr (str "cat"), none⟩).2 =
      some ⟨arkBuildSystemPrompt (str "medium"), arkUserPrompt (str "cat"),
        (none : Option Line).getD (str "deepseek-v3-2-251201")⟩ ∧
    arkBuildSystemPrompt (str "wild") = arkPreamble ++ str "undefined" :=
  have h := c9_density_default
  ⟨h.1 (some (str "k")) none (.ok (some (str "A"))) (str "cat") (str "k") rfl (by decide),
   (h.2 (str "wild") (by decide)).1⟩

/-! ## Supporting lemmas: trimming -/

theorem trimEnd_cons (c : Char) (t : Line) :
    trimEnd (c :: t) = match trimEnd t with
      | [] => if wsChar c then [] else [c]
      | r => c :: r := rfl

theorem trimEnd_eq_nil_iff (l : Line) : trimEnd l = [] ↔ l.all wsChar := by
  induction l with
  | nil => simp [trimEnd]
  | cons c t ih =>
    rw [trimEnd_cons]
    cases h : trimEnd t with
    | nil =>
      have ht : t.all wsChar = true := ih.mp h
      by_cases hc : wsChar c <;> simp [hc, ht]
    | cons r rs =>
      have ht : ¬ t.all wsChar = true := fun hall => by
        rw [ih.mpr hall] at h
        cases h
      simp [ht]

theorem trimEnd_head?_eq (l : Line) (c : Char) (h : (trimEnd l).head? = some c) :
    l.head? = some c := by
  cases l with
  | nil => cases h
  | cons a t =>
    rw [trimEnd_cons] at h
    cases ht : trimEnd t with
    | nil =>
      rw [ht] at h
      by_cases hw : wsChar a <;> simp [hw] at h
      simp [h]
    | cons r rs =>
      rw [ht] at h
      simp at h
      simp [h]

theorem trimEnd_idem (l : Line) : trimEnd (trimEnd l) = trimEnd l := by
  induction l with
  | nil => rfl
  | cons c t ih =>
    rw [trimEnd_cons]
    cases h : trimEnd t with
    | nil =>
      by_cases hc : wsChar c <;> simp [hc, trimEnd, trimEnd_cons]
    | cons r rs =>
      rw [h] at ih
      rw [trimEnd_cons, ih]

theorem trimEnd_append_ws (l s : Line) (hs : s.all wsChar) :
    trimEnd (l ++ s) = trimEnd l := by
  induction l with
  | nil =>
    simp only [List.nil_append, trimEnd]
    exact (trimEnd_eq_nil_iff s).mpr hs
  | cons c t ih =>
    rw [List.cons_append, trimEnd_cons, trimEnd_cons, ih]

theorem trimStart_all_ws (s : Line) (hs : s.all wsChar) : trimStart s = [] := by
  induction s with
  | nil => rfl
  | cons c t ih =>
    simp only [List.all_cons, Bool.and_eq_true] at hs
    unfold trimStart
    rw [List.dropWhile_cons, if_pos hs.1]
    exact ih hs.2

theorem trimStart_ws_append (s l : Line) (hs : s.all wsChar) :
    trimStart (s ++ l) = trimStart l := by
  induction s with
  | nil => rfl
  | cons c t ih =>
    simp only [List.all_cons, Bool.and_eq_true] at hs
    unfold trimStart
    rw [List.cons_append, List.dropWhile_cons, if_pos hs.1]
    exact ih hs.2

theorem trimStart_head_not_ws (l : Line) (c : Char) (h : l.head? = some c)
    (hc : wsChar c = false) : trimStart l = l := by
  cases l with
  | nil => cases h
  | cons a t =>
    simp only [List.head?_cons, Option.some.injEq] at h
    subst h
    unfold trimStart
    rw [List.dropWhile_cons, if_neg (by rw [hc]; exact Bool.false_ne_true)]

theorem trimStart_head_ws (l : Line) (c : Char) (hc : wsChar c = true) :
    trimStart (c :: l) = trimStart l := by
  unfold trimStart
  rw [List.dropWhile_cons, if_pos hc]

theorem trimStart_idem (l : Line) : trimStart (trimStart l) = trimStart l := by
  cases h : trimStart l with
  | nil => rfl
  | cons c t =>
    have hc : wsChar c = false := by
      have h2 := List.head?_dropWhile_not wsChar l
      rw [show l.dropWhile wsChar = trimStart l from rfl, h] at h2
      simpa using h2
    exact trimStart_head_not_ws (c :: t) c rfl hc

theorem trimStart_trimEnd_comm (l : Line) :
    trimStart (trimEnd l) = trimEnd (trimStart l) := by
  induction l with
  | nil => rfl
  | cons c t ih =>
    by_cases hc : wsChar c = true
    · rw [trimEnd_cons]
      cases h : trimEnd t with
      | nil =>
        have ht : t.all wsChar := (trimEnd_eq_nil_iff t).mp h
        have ht2 : (trimStart t).all wsChar := by
          simp only [List.all_eq_true] at ht ⊢
          intro x hx
          exact ht x (List.dropWhile_sublist wsChar |>.subset hx)
        dsimp only
        rw [if_pos hc, trimStart_head_ws t c hc,
          (trimEnd_eq_nil_iff (trimStart t)).mpr ht2]
        rfl
      | cons r rs =>
        dsimp only
        rw [trimStart_head_ws (r :: rs) c hc, trimStart_head_ws t c hc, ← h, ih]
    · have hcf : wsChar c = false := by
        cases hcb : wsChar c with
        | false => rfl
        | true => exact absurd hcb hc
      rw [trimStart_head_not_ws (c :: t) c rfl hcf, trimEnd_cons]
      cases h : trimEnd t with
      | nil =>
        dsimp only
        rw [if_neg (by rw [hcf]; exact Bool.false_ne_true)]
        exact trimStart_head_not_ws [c] c rfl hcf
      | cons r rs =>
        dsimp only
        exact trimStart_head_not_ws (c :: r :: rs) c rfl hcf

theorem trim_trimEnd (l : Line) : trim (trimEnd l) = trim l := by
  unfold trim
  rw [trimStart_trimEnd_comm, trimEnd_idem]

theorem trim_eq_nil_iff (l : Line) : trim l = [] ↔ l.all wsChar := by
  unfold trim
  rw [trimEnd_eq_nil_iff]
  unfold trimStart
  constructor
  · intro h
    simp only [List.all_eq_true] at h ⊢
    intro x hx
    have hx2 : x ∈ l.takeWhile wsChar ++ l.dropWhile wsChar := by
      rw [List.takeWhile_append_dropWhile]
      exact hx
    rcases List.mem_append.mp hx2 with h1 | h2
    · exact List.mem_takeWhile_imp h1
    · exact h x h2
  · intro h
    simp only [List.all_eq_true] at h ⊢
    intro x hx
    exact h x (List.dropWhile_sublist wsChar |>.subset hx)

theorem isBlank_trimEnd (l : Line) : isBlank (trimEnd l) = isBlank l := by
  unfold isBlank
  rw [trim_trimEnd]

theorem isBlank_iff_all_ws (l : Line) : isBlank l = true ↔ l.all wsChar := by
  unfold isBlank
  rw [List.isEmpty_iff]
  exact trim_eq_nil_iff l

theorem trimEnd_of_blank (l : Line) (h : isBlank l = true) : trimEnd l = [] :=
  (trimEnd_eq_nil_iff l).mpr ((isBlank_iff_all_ws l).mp h)

theorem trim_head_not_ws (l : Line) (c : Char) (h : (trim l).head? = some c) :
    wsChar c = false := by
  unfold trim at h
  have h2 := trimEnd_head?_eq _ _ h
  have h3 := List.head?_dropWhile_not wsChar l
  rw [show l.dropWhile wsChar = trimStart l from rfl, h2] at h3
  simpa using h3

theorem trimStart_trim (l : Line) : trimStart (trim l) = trim l := by
  cases h : trim l with
  | nil => rfl
  | cons c t =>
    exact trimStart_head_not_ws (c :: t) c rfl (trim_head_not_ws l c (by rw [h]; rfl))

theorem trimEnd_trim (l : Line) : trimEnd (trim l) = trim l := by
  unfold trim
  rw [trimEnd_idem]

theorem trim_trim (l : Line) : trim (trim l) = trim l := by
  unfold trim
  rw [trimStart_trimEnd_comm, trimEnd_idem, trimStart_idem]

/-! ## Supporting lemmas: leading whitespace, dropping, padding -/

theorem takeWhile_all {p : Char → Bool} (l : Line) (x : Char)
    (hx : x ∈ l.takeWhile p) : p x = true :=
  List.mem_takeWhile_imp hx

theorem takeWhile_all_append {p : Char → Bool} (s l : Line) (hs : ∀ x ∈ s, p x = true) :
    (s ++ l).takeWhile p = s ++ l.takeWhile p := by
  induction s with
  | nil => rfl
  | cons c t ih =>
    rw [List.cons_append, List.takeWhile_cons, if_pos (hs c (List.mem_cons_self c t)),
      ih (fun x hx => hs x (List.mem_cons_of_mem c hx)), List.cons_append]

theorem takeWhile_dropWhile_nil {p : Char → Bool} (l : Line) :
    (l.dropWhile p).takeWhile p = [] := by
  cases h : l.dropWhile p with
  | nil => rfl
  | cons c t =>
    have hc := List.head?_dropWhile_not p l
    rw [h] at hc
    simp only [List.head?_cons, Option.map_some] at hc
    rw [List.takeWhile_cons, if_neg ?hn]
    case hn =>
      intro habs
      rw [habs] at hc
      exact absurd hc (by simp)

theorem wsLeading_eq_takeWhile (l : Line) :
    wsLeading l = (l.takeWhile wsChar).length := by
  unfold wsLeading trimStart
  have hdec : l.takeWhile wsChar ++ l.dropWhile wsChar = l := by
    rw [List.takeWhile_append_dropWhile]
  have hlen : (l.takeWhile wsChar).length + (l.dropWhile wsChar).length = l.length := by
    conv_rhs => rw [← hdec]
    rw [List.length_append]
  omega

theorem spaceLeading_eq_takeWhile (l : Line) :
    spaceLeading l = (l.takeWhile (fun c => c = ' ')).length := rfl

theorem spaceLeading_le_wsLeading (l : Line) : spaceLeading l ≤ wsLeading l := by
  rw [spaceLeading_eq_takeWhile, wsLeading_eq_takeWhile]
  induction l with
  | nil => exact Nat.le_refl 0
  | cons c t ih =>
    by_cases hc : c = ' '
    · have hw : wsChar c = true := by rw [hc]; rfl
      rw [List.takeWhile_cons, List.takeWhile_cons, if_pos (by rw [hc]; rfl), if_pos hw]
      simpa using ih
    · rw [List.takeWhile_cons, if_neg (by simpa using hc)]
      exact Nat.zero_le _

theorem drop_decomp (p : Char → Bool) (l : Line) (k : Nat)
    (hk : k ≤ (l.takeWhile p).length) :
    l.drop k = (l.takeWhile p).drop k ++ l.dropWhile p := by
  have hdec : l.takeWhile p ++ l.dropWhile p = l := by
    rw [List.takeWhile_append_dropWhile]
  conv_lhs => rw [← hdec]
  rw [List.drop_append_of_le_length hk]

theorem trimStart_drop (l : Line) (k : Nat) (hk : k ≤ wsLeading l) :
    trimStart (l.drop k) = trimStart l := by
  rw [wsLeading_eq_takeWhile] at hk
  rw [drop_decomp wsChar l k hk]
  rw [trimStart_ws_append _ _ ?hall]
  case hall =>
    simp only [List.all_eq_true]
    intro x hx
    exact takeWhile_all l x (List.drop_subset _ _ hx)
  rw [show l.dropWhile wsChar = trimStart l from rfl, trimStart_idem]

theorem trim_drop (l : Line) (k : Nat) (hk : k ≤ wsLeading l) :
    trim (l.drop k) = trim l := by
  unfold trim
  rw [trimStart_drop l k hk]

theorem isBlank_drop (l : Line) (k : Nat) (hk : k ≤ wsLeading l) :
    isBlank (l.drop k) = isBlank l := by
  unfold isBlank
  rw [trim_drop l k hk]

theorem wsLeading_drop (l : Line) (k : Nat) (hk : k ≤ wsLeading l) :
    wsLeading (l.drop k) = wsLeading l - k := by
  have h1 : wsLeading (l.drop k) = (l.drop k).length - (trimStart (l.drop k)).length := rfl
  have h2 : (trimStart l).length ≤ l.length := by
    unfold trimStart
    exact (List.dropWhile_sublist wsChar).length_le
  have hkl : k ≤ l.length := by
    have := wsLeading_eq_takeWhile l
    have h3 : (l.takeWhile wsChar).length ≤ l.length :=
      (List.takeWhile_sublist wsChar).length_le
    omega
  rw [h1, trimStart_drop l k hk, List.length_drop]
  unfold wsLeading at hk ⊢
  omega

theorem spaceLeading_drop (l : Line) (k : Nat) (hk : k ≤ spaceLeading l) :
    spaceLeading (l.drop k) = spaceLeading l - k := by
  rw [spaceLeading_eq_takeWhile] at hk
  rw [spaceLeading_eq_takeWhile, spaceLeading_eq_takeWhile,
    drop_decomp (fun c => c = ' ') l k hk]
  rw [takeWhile_all_append _ _ ?hall, takeWhile_dropWhile_nil]
  case hall =>
    intro x hx
    exact takeWhile_all l x (List.drop_subset _ _ hx)
  rw [List.append_nil, List.length_drop]

theorem all_ws_replicate (n : Nat) : (List.replicate n ' ').all wsChar = true := by
  simp only [List.all_eq_true]
  intro x hx
  rw [List.eq_of_mem_replicate hx]
  rfl

theorem trimEnd_pad (l : Line) (n : Nat) :
    trimEnd (l ++ List.replicate n ' ') = trimEnd l :=
  trimEnd_append_ws l _ (all_ws_replicate n)

theorem trim_comm_form (l : Line) : trim l = trimStart (trimEnd l) := by
  unfold trim
  rw [trimStart_trimEnd_comm]

theorem trim_pad (l : Line) (n : Nat) :
    trim (l ++ List.replicate n ' ') = trim l := by
  rw [trim_comm_form, trimEnd_pad, ← trim_comm_form]

theorem isBlank_pad (l : Line) (n : Nat) :
    isBlank (l ++ List.replicate n ' ') = isBlank l := by
  unfold isBlank
  rw [trim_pad]

theorem trimStart_eq_nil_iff (l : Line) : trimStart l = [] ↔ l.all wsChar := by
  unfold trimStart
  rw [List.dropWhile_eq_nil_iff]
  simp [List.all_eq_true]

theorem trimStart_append_ne_nil (l s : Line) (h : trimStart l ≠ []) :
    trimStart (l ++ s) = trimStart l ++ s := by
  induction l with
  | nil => exact absurd rfl h
  | cons c t ih =>
    by_cases hc : wsChar c = true
    · rw [List.cons_append, trimStart_head_ws (t ++ s) c hc, trimStart_head_ws t c hc]
      rw [trimStart_head_ws t c hc] at h
      exact ih h
    · have hcf : wsChar c = false := by
        cases hcb : wsChar c with
        | false => rfl
        | true => exact absurd hcb hc
      rw [List.cons_append, trimStart_head_not_ws (c :: (t ++ s)) c rfl hcf,
        trimStart_head_not_ws (c :: t) c rfl hcf, List.cons_append]

theorem wsLeading_pad (l : Line) (n : Nat) (h : isBlank l = false) :
    wsLeading (l ++ List.replicate n ' ') = wsLeading l := by
  have hts : trimStart l ≠ [] := by
    intro habs
    have hb : isBlank l = true :=
      (isBlank_iff_all_ws l).mpr ((trimStart_eq_nil_iff l).mp habs)
    rw [h] at hb
    exact Bool.false_ne_true hb
  unfold wsLeading
  rw [trimStart_append_ne_nil l _ hts, List.length_append, List.length_append]
  omega

/-! ## Supporting lemmas: the repair step -/

theorem trimEnd_append_ne_nil (x t : Line) (h : trimEnd t ≠ []) :
    trimEnd (x ++ t) = x ++ trimEnd t := by
  induction x with
  | nil => rfl
  | cons c x' ih =>
    rw [List.cons_append, trimEnd_cons, ih]
    cases hx : x' ++ trimEnd t with
    | nil =>
      rcases List.append_eq_nil.mp hx with ⟨-, h2⟩
      exact absurd h2 h
    | cons r rs =>
      dsimp only
      rw [List.cons_append, hx]

theorem isBlank_false_iff_trim_ne_nil (l : Line) :
    isBlank l = false ↔ trim l ≠ [] := by
  unfold isBlank
  cases trim l with
  | nil => simp
  | cons c t => simp

theorem trim_replicate_append_trim (n : Nat) (l : Line) :
    trim (List.replicate n ' ' ++ trim l) = trim l := by
  have h1 : trim (List.replicate n ' ' ++ trim l)
      = trimEnd (trimStart (List.replicate n ' ' ++ trim l)) := rfl
  rw [h1, trimStart_ws_append _ _ (all_ws_replicate n), trimStart_trim, trimEnd_trim]

theorem wsLeading_replicate_append_trim (n : Nat) (l : Line) (h : isBlank l = false) :
    wsLeading (List.replicate n ' ' ++ trim l) = n := by
  unfold wsLeading
  rw [trimStart_ws_append _ _ (all_ws_replicate n)]
  rw [trimStart_trim]
  rw [List.length_append, List.length_replicate]
  omega

theorem repairLine_eq_of_blank (m2 : Nat) (l : Line) (h : isBlank l = true) :
    repairLine m2 l = l := by
  unfold repairLine
  rw [if_pos h]

theorem repairLine_eq_of_close (m2 : Nat) (l : Line)
    (h : Nat.dist (center2 l) m2 ≤ 6) : repairLine m2 l = l := by
  unfold repairLine
  by_cases hb : isBlank l = true
  · rw [if_pos hb]
  · rw [if_neg hb]
    dsimp only
    rw [if_neg ?hno]
    case hno =>
      intro habs
      have : center2 l = 2 * wsLeading l + (trim l).length := rfl
      rw [this] at h
      omega

theorem repairLine_eq_of_far (m2 : Nat) (l : Line) (hb : isBlank l = false)
    (h : 6 < Nat.dist (center2 l) m2) :
    repairLine m2 l = List.replicate ((m2 + 1 - (trim l).length) / 2) ' ' ++ trim l := by
  unfold repairLine
  rw [if_neg (by rw [hb]; exact Bool.false_ne_true)]
  dsimp only
  rw [if_pos ?hyes]
  case hyes =>
    have : center2 l = 2 * wsLeading l + (trim l).length := rfl
    rw [this] at h
    exact h

theorem trim_repairLine (m2 : Nat) (l : Line) :
    trim (repairLine m2 l) = trim l := by
  by_cases hb : isBlank l = true
  · rw [repairLine_eq_of_blank m2 l hb]
  · have hb' : isBlank l = false := by
      cases hx : isBlank l with
      | false => rfl
      | true => exact absurd hx hb
    by_cases hd : 6 < Nat.dist (center2 l) m2
    · rw [repairLine_eq_of_far m2 l hb' hd, trim_replicate_append_trim]
    · rw [repairLine_eq_of_close m2 l (by omega)]

theorem isBlank_repairLine (m2 : Nat) (l : Line) :
    isBlank (repairLine m2 l) = isBlank l := by
  unfold isBlank
  rw [trim_repairLine]

theorem trimEnd_repairLine (m2 : Nat) (l : Line) (h : trimEnd l = l) :
    trimEnd (repairLine m2 l) = repairLine m2 l := by
  by_cases hb : isBlank l = true
  · rw [repairLine_eq_of_blank m2 l hb, h]
  · have hb' : isBlank l = false := by
      cases hx : isBlank l with
      | false => rfl
      | true => exact absurd hx hb
    by_cases hd : 6 < Nat.dist (center2 l) m2
    · rw [repairLine_eq_of_far m2 l hb' hd]
      have htne : trimEnd (trim l) ≠ [] := by
        rw [trimEnd_trim]
        exact (isBlank_false_iff_trim_ne_nil l).mp hb'
      rw [trimEnd_append_ne_nil _ _ htne, trimEnd_trim]
    · rw [repairLine_eq_of_close m2 l (by omega), h]

theorem center2_repairLine_far (m2 : Nat) (l : Line) (hb : isBlank l = false)
    (h : 6 < Nat.dist (center2 l) m2) :
    center2 (repairLine m2 l) =
      2 * ((m2 + 1 - (trim l).length) / 2) + (trim l).length := by
  rw [repairLine_eq_of_far m2 l hb h]
  unfold center2
  rw [wsLeading_replicate_append_trim _ _ hb, trim_replicate_append_trim]

/-! ## Supporting lemmas: split and join -/

theorem splitNl_cons (c : Char) (rest : Line) :
    splitNl (c :: rest) = match splitNl rest with
      | [] => [[]]
      | l :: ls => if c = '\n' then [] :: l :: ls else (c :: l) :: ls := rfl

theorem splitNl_ne_nil (s : Line) : splitNl s ≠ [] := by
  induction s with
  | nil => exact fun h => by cases h
  | cons c rest ih =>
    rw [splitNl_cons]
    cases h : splitNl rest with
    | nil => exact fun h2 => by cases h2
    | cons l ls =>
      dsimp only
      by_cases hc : c = '\n'
      · rw [if_pos hc]
        exact fun h2 => by cases h2
      · rw [if_neg hc]
        exact fun h2 => by cases h2

theorem mem_splitNl_no_newline (s : Line) : ∀ l ∈ splitNl s, '\n' ∉ l := by
  induction s with
  | nil =>
    intro l hl
    rw [show splitNl [] = [[]] from rfl, List.mem_singleton] at hl
    rw [hl]
    exact List.not_mem_nil '\n'
  | cons c rest ih =>
    intro l hl
    rw [splitNl_cons] at hl
    cases h : splitNl rest with
    | nil => exact absurd h (splitNl_ne_nil rest)
    | cons l0 ls =>
      rw [h] at hl ih
      dsimp only at hl
      by_cases hc : c = '\n'
      · rw [if_pos hc] at hl
        rcases List.mem_cons.mp hl with h1 | h2
        · rw [h1]
          exact List.not_mem_nil '\n'
        · exact ih l h2
      · rw [if_neg hc] at hl
        rcases List.mem_cons.mp hl with h1 | h2
        · rw [h1]
          intro hmem
          rcases List.mem_cons.mp hmem with h3 | h4
          · exact hc h3.symm
          · exact ih l0 (List.mem_cons_self l0 ls) h4
        · exact ih l (List.mem_cons_of_mem l0 h2)

theorem splitNl_no_newline (l : Line) (h : '\n' ∉ l) : splitNl l = [l] := by
  induction l with
  | nil => rfl
  | cons c t ih =>
    rw [splitNl_cons, ih (fun hm => h (List.mem_cons_of_mem c hm))]
    dsimp only
    rw [if_neg (fun hc => h (by rw [← hc]; exact List.mem_cons_self c t))]

theorem splitNl_append_newline (l rest : Line) (h : '\n' ∉ l) :
    splitNl (l ++ '\n' :: rest) = l :: splitNl rest := by
  induction l with
  | nil =>
    rw [List.nil_append, splitNl_cons]
    cases hr : splitNl rest with
    | nil => exact absurd hr (splitNl_ne_nil rest)
    | cons r rs =>
      dsimp only
      rw [if_pos rfl]
  | cons c t ih =>
    rw [List.cons_append, splitNl_cons, ih (fun hm => h (List.mem_cons_of_mem c hm))]
    dsimp only
    rw [if_neg (fun hc => h (by rw [← hc]; exact List.mem_cons_self c t))]

theorem splitNl_joinNl (ls : List Line) (h : ls ≠ [])
    (hn : ∀ l ∈ ls, '\n' ∉ l) : splitNl (joinNl ls) = ls := by
  induction ls with
  | nil => exact absurd rfl h
  | cons l rest ih =>
    cases rest with
    | nil =>
      rw [show joinNl [l] = l from rfl]
      exact splitNl_no_newline l (hn l (List.mem_singleton.mpr rfl))
    | cons l' ls' =>
      rw [show joinNl (l :: l' :: ls') = l ++ '\n' :: joinNl (l' :: ls') from rfl]
      rw [splitNl_append_newline l _ (hn l (List.mem_cons_self l _))]
      rw [ih (fun h2 => by cases h2) (fun x hx => hn x (List.mem_cons_of_mem l hx))]

/-! ## Supporting lemmas: blank-edge trimming -/

theorem dropWhile_eq_self_of_head {p : Line → Bool} (ls : List Line) (a : Line)
    (h : ls.head? = some a) (hp : p a = false) : ls.dropWhile p = ls := by
  cases ls with
  | nil => cases h
  | cons x xs =>
    simp only [List.head?_cons, Option.some.injEq] at h
    subst h
    rw [List.dropWhile_cons, if_neg (by rw [hp]; exact Bool.false_ne_true)]

theorem dropBlankEdges_eq_self (ls : List Line)
    (h1 : ∀ a, ls.head? = some a → isBlank a = false)
    (h2 : ∀ a, ls.getLast? = some a → isBlank a = false) :
    dropBlankEdges ls = ls := by
  unfold dropBlankEdges
  cases ls with
  | nil => rfl
  | cons x xs =>
    rw [dropWhile_eq_self_of_head (x :: xs) x rfl (h1 x rfl)]
    cases hr : (x :: xs).reverse.head? with
    | none =>
      rw [List.head?_eq_none_iff] at hr
      exact absurd hr (by simp)
    | some b =>
      have hb : isBlank b = false := by
        rw [List.head?_reverse] at hr
        exact h2 b hr
      rw [dropWhile_eq_self_of_head _ b hr hb, List.reverse_reverse]

theorem head?_dropBlankEdges (ls : List Line) (a : Line)
    (h : (dropBlankEdges ls).head? = some a) : isBlank a = false := by
  unfold dropBlankEdges at h
  rw [List.head?_reverse] at h
  have hsuf : List.IsSuffix ((ls.dropWhile isBlank).reverse.dropWhile isBlank)
      ((ls.dropWhile isBlank).reverse) := List.dropWhile_suffix isBlank
  rcases hsuf with ⟨t, ht⟩
  have hBne : (ls.dropWhile isBlank).reverse.dropWhile isBlank ≠ [] := by
    intro habs
    rw [habs] at h
    cases h
  have h2 : (t ++ (ls.dropWhile isBlank).reverse.dropWhile isBlank).getLast? = some a := by
    rw [List.getLast?_append_of_ne_nil t hBne]
    exact h
  rw [ht, List.getLast?_reverse] at h2
  have h4 := List.head?_dropWhile_not isBlank ls
  rw [h2] at h4
  simpa using h4

theorem getLast?_dropBlankEdges (ls : List Line) (a : Line)
    (h : (dropBlankEdges ls).getLast? = some a) : isBlank a = false := by
  unfold dropBlankEdges at h
  rw [List.getLast?_reverse] at h
  have h4 := List.head?_dropWhile_not isBlank (ls.dropWhile isBlank).reverse
  rw [h] at h4
  simpa using h4

theorem dropBlankEdges_sublist (ls : List Line) :
    List.Sublist (dropBlankEdges ls) ls := by
  unfold dropBlankEdges
  have h1 : List.Sublist ((ls.dropWhile isBlank).reverse.dropWhile isBlank)
      ((ls.dropWhile isBlank).reverse) := List.dropWhile_sublist isBlank
  have h2 := h1.reverse
  rw [List.reverse_reverse] at h2
  exact h2.trans (List.dropWhile_sublist isBlank)

/-! ## Supporting lemmas: sorting and folds -/

theorem insertSorted_cons (a b : Nat) (bs : List Nat) :
    insertSorted a (b :: bs) = if a ≤ b then a :: b :: bs else b :: insertSorted a bs := rfl

theorem insertSorted_perm (a : Nat) (l : List Nat) :
    List.Perm (insertSorted a l) (a :: l) := by
  induction l with
  | nil => exact List.Perm.refl _
  | cons b bs ih =>
    rw [insertSorted_cons]
    by_cases h : a ≤ b
    · rw [if_pos h]
    · rw [if_neg h]
      exact (List.Perm.cons b ih).trans (List.Perm.swap a b bs)

theorem insSort_perm (l : List Nat) : List.Perm (insSort l) l := by
  induction l with
  | nil => exact List.Perm.refl _
  | cons a as ih =>
    exact (insertSorted_perm a (insSort as)).trans (List.Perm.cons a ih)

theorem insSort_length (l : List Nat) : (insSort l).length = l.length :=
  (insSort_perm l).length_eq

theorem insertSorted_map_sub (a s : Nat) (m : List Nat) (ha : s ≤ a)
    (hm : ∀ x ∈ m, s ≤ x) :
    insertSorted (a - s) (m.map (fun x => x - s)) =
      (insertSorted a m).map (fun x => x - s) := by
  induction m with
  | nil => rfl
  | cons b bs ih =>
    have hb : s ≤ b := hm b (List.mem_cons_self b bs)
    rw [List.map_cons, insertSorted_cons, insertSorted_cons]
    by_cases h : a ≤ b
    · rw [if_pos (Nat.sub_le_sub_right h s), if_pos h, List.map_cons, List.map_cons]
    · have h2 : ¬ a - s ≤ b - s := fun hle => h (by omega)
      rw [if_neg h2, if_neg h, List.map_cons,
        ih (fun x hx => hm x (List.mem_cons_of_mem b hx))]

theorem insSort_map_sub (s : Nat) (l : List Nat) (hl : ∀ x ∈ l, s ≤ x) :
    insSort (l.map (fun x => x - s)) = (insSort l).map (fun x => x - s) := by
  induction l with
  | nil => rfl
  | cons a as ih =>
    rw [List.map_cons, show insSort ((a - s) :: (as.map (fun x => x - s))) =
      insertSorted (a - s) (insSort (as.map (fun x => x - s))) from rfl]
    rw [ih (fun x hx => hl x (List.mem_cons_of_mem a hx))]
    rw [insertSorted_map_sub a s (insSort as) (hl a (List.mem_cons_self a as))
      (fun x hx => hl x ((insSort_perm as).mem_iff.mp hx |> List.mem_cons_of_mem a))]
    rfl

theorem getD_map_sub_of_lt (s : Nat) (xs : List Nat) (k : Nat) (h : k < xs.length) :
    (xs.map (fun x => x - s)).getD k 0 = xs.getD k 0 - s := by
  rw [List.getD_eq_getElem _ _ (by rw [List.length_map]; exact h),
    List.getD_eq_getElem _ _ h, List.getElem_map]

theorem getD_mem_of_lt (xs : List Nat) (k : Nat) (h : k < xs.length) :
    xs.getD k 0 ∈ xs := by
  rw [List.getD_eq_getElem _ _ h]
  exact List.getElem_mem h

theorem natMin_eq (a b : Nat) : Nat.min a b = if a ≤ b then a else b := rfl

theorem natMin_le_left (a b : Nat) : Nat.min a b ≤ a := by
  rw [natMin_eq]
  split <;> omega

theorem natMin_le_right (a b : Nat) : Nat.min a b ≤ b := by
  rw [natMin_eq]
  split <;> omega

theorem natMax_eq (a b : Nat) : Nat.max a b = if a ≤ b then b else a := rfl

theorem natMax_le_left (a b : Nat) : a ≤ Nat.max a b := by
  rw [natMax_eq]
  split <;> omega

theorem natMax_le_right (a b : Nat) : b ≤ Nat.max a b := by
  rw [natMax_eq]
  split <;> omega

theorem foldl_min_mem (xs : List Nat) : ∀ x : Nat, xs.foldl Nat.min x ∈ x :: xs := by
  induction xs with
  | nil => exact fun x => List.mem_singleton.mpr rfl
  | cons b bs ih =>
    intro x
    rw [List.foldl_cons]
    rcases List.mem_cons.mp (ih (Nat.min x b)) with h | h
    · rw [h, natMin_eq]
      split
      · exact List.mem_cons_self x (b :: bs)
      · exact List.mem_cons_of_mem x (List.mem_cons_self b bs)
    · exact List.mem_cons_of_mem x (List.mem_cons_of_mem b h)

theorem foldl_min_le_init (xs : List Nat) : ∀ x : Nat, xs.foldl Nat.min x ≤ x := by
  induction xs with
  | nil => exact fun x => Nat.le_refl x
  | cons b bs ih =>
    intro x
    rw [List.foldl_cons]
    have h1 := ih (Nat.min x b)
    have h2 : Nat.min x b ≤ x := natMin_le_left x b
    omega

theorem foldl_min_le_mem (xs : List Nat) : ∀ x y : Nat, y ∈ xs →
    xs.foldl Nat.min x ≤ y := by
  induction xs with
  | nil => exact fun x y hy => absurd hy (List.not_mem_nil y)
  | cons b bs ih =>
    intro x y hy
    rw [List.foldl_cons]
    rcases List.mem_cons.mp hy with h | h
    · subst h
      have h1 := foldl_min_le_init bs (Nat.min x y)
      have h2 : Nat.min x y ≤ y := natMin_le_right x y
      omega
    · exact ih (Nat.min x b) y h

theorem foldl_min_map_sub (xs : List Nat) (k : Nat) : ∀ x : Nat,
    (xs.map (fun v => v - k)).foldl Nat.min (x - k) = xs.foldl Nat.min x - k := by
  induction xs with
  | nil => exact fun x => rfl
  | cons b bs ih =>
    intro x
    rw [List.map_cons, List.foldl_cons, List.foldl_cons]
    have hmin : Nat.min (x - k) (b - k) = Nat.min x b - k := by
      rw [natMin_eq, natMin_eq]
      split
      · split
        · rfl
        · omega
      · split
        · omega
        · rfl
    rw [hmin]
    exact ih (Nat.min x b)

theorem le_foldl_max_init (xs : List Nat) : ∀ a : Nat, a ≤ xs.foldl Nat.max a := by
  induction xs with
  | nil => exact fun a => Nat.le_refl a
  | cons b bs ih =>
    intro a
    rw [List.foldl_cons]
    have h1 := ih (Nat.max a b)
    have h2 : a ≤ Nat.max a b := natMax_le_left a b
    omega

theorem le_foldl_max_mem (xs : List Nat) : ∀ a y : Nat, y ∈ xs →
    y ≤ xs.foldl Nat.max a := by
  induction xs with
  | nil => exact fun a y hy => absurd hy (List.not_mem_nil y)
  | cons b bs ih =>
    intro a y hy
    rw [List.foldl_cons]
    rcases List.mem_cons.mp hy with h | h
    · subst h
      have h1 := le_foldl_max_init bs (Nat.max a y)
      have h2 : y ≤ Nat.max a y := natMax_le_right a y
      omega
    · exact ih (Nat.max a b) y h

/-! ## Supporting lemmas: centers and the median -/

theorem map_eq_self_of {α : Type} (f : α → α) (ls : List α)
    (h : ∀ x ∈ ls, f x = x) : ls.map f = ls := by
  induction ls with
  | nil => rfl
  | cons a as ih =>
    rw [List.map_cons, h a (List.mem_cons_self a as),
      ih (fun x hx => h x (List.mem_cons_of_mem a hx))]

theorem centersOf_map (f : Line → Line) (g : Nat → Nat) (ls : List Line)
    (hb : ∀ l ∈ ls, isBlank (f l) = isBlank l)
    (hc : ∀ l ∈ ls, isBlank l = false → center2 (f l) = g (center2 l)) :
    centersOf (ls.map f) = (centersOf ls).map g := by
  unfold centersOf
  rw [List.filter_map]
  rw [List.filter_congr (fun l hl => by
    show (!isBlank (f l)) = (!isBlank l)
    rw [hb l hl])]
  rw [List.map_map, List.map_map]
  exact List.map_congr_left (fun l hl => by
    rcases List.mem_filter.mp hl with ⟨hmem, hnb⟩
    have hnb' : isBlank l = false := by
      cases hx : isBlank l with
      | false => rfl
      | true => rw [hx] at hnb; cases hnb
    exact hc l hmem hnb')

theorem centersOf_ge (ls : List Line) (s : Nat)
    (hs : ∀ l ∈ ls, isBlank l = false → s ≤ spaceLeading l) :
    ∀ x ∈ centersOf ls, 2 * s ≤ x := by
  intro x hx
  unfold centersOf at hx
  rcases List.mem_map.mp hx with ⟨l, hl, hc⟩
  rcases List.mem_filter.mp hl with ⟨hmem, hnb⟩
  have hnb' : isBlank l = false := by
    cases hb : isBlank l with
    | false => rfl
    | true => rw [hb] at hnb; cases hnb
  have h1 : s ≤ spaceLeading l := hs l hmem hnb'
  have h2 : spaceLeading l ≤ wsLeading l := spaceLeading_le_wsLeading l
  rw [← hc]
  unfold center2
  omega

theorem medianOf_eq_sub (ls ls' : List Line) (s : Nat)
    (hc : centersOf ls' = (centersOf ls).map (fun x => x - 2 * s))
    (hall : ∀ x ∈ centersOf ls, 2 * s ≤ x)
    (hlen : 2 ≤ (centersOf ls).length) :
    medianOf ls' = medianOf ls - 2 * s := by
  simp only [medianOf]
  rw [hc]
  have hdmap : ((centersOf ls).map (fun x => x - 2 * s)).drop 1 =
      ((centersOf ls).drop 1).map (fun x => x - 2 * s) := by
    cases centersOf ls with
    | nil => rfl
    | cons c cs => rfl
  rw [hdmap]
  rw [insSort_map_sub (2 * s) _ (fun x hx => hall x (List.mem_of_mem_drop hx))]
  rw [List.length_map]
  have hklt : (insSort ((centersOf ls).drop 1)).length / 2 <
      (insSort ((centersOf ls).drop 1)).length := by
    rw [insSort_length, List.length_drop]
    omega
  exact getD_map_sub_of_lt (2 * s) _ _ hklt

theorem medianOf_mem (ls : List Line) (hlen : 2 ≤ (centersOf ls).length) :
    medianOf ls ∈ (centersOf ls).drop 1 := by
  simp only [medianOf]
  have hklt : (insSort ((centersOf ls).drop 1)).length / 2 <
      (insSort ((centersOf ls).drop 1)).length := by
    rw [insSort_length, List.length_drop]
    omega
  exact (insSort_perm _).mem_iff.mp (getD_mem_of_lt _ _ hklt)

/-! ## Supporting lemmas: pipeline structure -/

theorem trimEnd_sublist (l : Line) : List.Sublist (trimEnd l) l := by
  induction l with
  | nil => exact List.Sublist.refl []
  | cons c t ih =>
    rw [trimEnd_cons]
    cases h : trimEnd t with
    | nil =>
      by_cases hc : wsChar c = true
      · rw [if_pos hc]
        exact List.nil_sublist (c :: t)
      · rw [if_neg hc]
        exact List.Sublist.cons₂ c (List.nil_sublist t)
    | cons r rs =>
      rw [h] at ih
      exact List.Sublist.cons₂ c ih

theorem trim_sublist (l : Line) : List.Sublist (trim l) l :=
  (trimEnd_sublist (trimStart l)).trans (List.dropWhile_sublist wsChar)

theorem trimEnd_append_fix (x d : Line) (hd : d ≠ [])
    (h : trimEnd (x ++ d) = x ++ d) : trimEnd d = d := by
  induction x with
  | nil => exact h
  | cons c x' ih =>
    rw [List.cons_append, trimEnd_cons] at h
    cases h2 : trimEnd (x' ++ d) with
    | nil =>
      rw [h2] at h
      by_cases hc : wsChar c = true
      · rw [if_pos hc] at h
        cases h
      · rw [if_neg hc] at h
        have h3 : x' ++ d = [] := by
          have := List.cons.injEq c [] c (x' ++ d) ▸ h
          simpa using h
        rcases List.append_eq_nil.mp h3 with ⟨-, h4⟩
        exact absurd h4 hd
    | cons r rs =>
      rw [h2] at h
      have h3 : r :: rs = x' ++ d := by
        simpa using h
      exact ih (by rw [h2, h3])

theorem trimEnd_drop (l : Line) (k : Nat) (h : trimEnd l = l) :
    trimEnd (l.drop k) = l.drop k := by
  cases hd : l.drop k with
  | nil => rfl
  | cons r rs =>
    have hdec : l.take k ++ l.drop k = l := List.take_append_drop k l
    have h2 : trimEnd (l.take k ++ l.drop k) = l.take k ++ l.drop k := by
      rw [hdec]
      exact h
    have h3 := trimEnd_append_fix (l.take k) (l.drop k)
      (by rw [hd]; exact fun h4 => by cases h4) h2
    rw [hd] at h3
    rw [h3]

theorem natDist_sub_sub (a b k : Nat) (ha : k ≤ a) (hb : k ≤ b) :
    Nat.dist (a - k) (b - k) = Nat.dist a b := by
  unfold Nat.dist
  omega

theorem centersOf_length_le (ls : List Line) :
    (centersOf ls).length ≤ ls.length := by
  unfold centersOf
  rw [List.length_map]
  exact List.length_filter_le _ _

theorem minIndent_le (ls : List Line) (m : Nat) (h : minIndentOf ls = some m)
    (l : Line) (hl : l ∈ ls) (hnb : isBlank l = false) : m ≤ spaceLeading l := by
  unfold minIndentOf at h
  have hmem : spaceLeading l ∈ ((ls.filter (fun l => !isBlank l)).map spaceLeading) := by
    exact List.mem_map_of_mem spaceLeading
      (List.mem_filter.mpr ⟨hl, by rw [hnb]; rfl⟩)
  cases hx : (ls.filter (fun l => !isBlank l)).map spaceLeading with
  | nil =>
    rw [hx] at hmem
    cases hmem
  | cons x xs =>
    rw [hx] at h hmem
    have hm : m = xs.foldl Nat.min x := by
      simpa using h.symm
    rcases List.mem_cons.mp hmem with h1 | h1
    · rw [hm, h1]
      exact foldl_min_le_init xs x
    · rw [hm]
      exact foldl_min_le_mem xs x (spaceLeading l) h1

/-- Unfolding of `normalizeLines` in the `< 2 lines` branch. -/
theorem normalizeLines_small (input : List Line) (h2 : (linePrep input).length < 2) :
    normalizeLines input = linePrep input := by
  simp only [normalizeLines]
  rw [if_pos h2]

/-- Unfolding of `normalizeLines` in the `< 3 centers` branch. -/
theorem normalizeLines_deg (input : List Line) (h2 : ¬ (linePrep input).length < 2)
    (h3 : (centersOf (linePrep input)).length < 3) :
    normalizeLines input = linePrep input := by
  simp only [normalizeLines]
  rw [if_neg h2, if_pos h3]

/-- Unfolding of `normalizeLines` in the main branch. -/
theorem normalizeLines_main (input : List Line) (h2 : ¬ (linePrep input).length < 2)
    (h3 : ¬ (centersOf (linePrep input)).length < 3) :
    normalizeLines input =
      (stripIndent ((linePrep input).map (repairLine (medianOf (linePrep input))))).map
        (padTo (maxLenOf
          (stripIndent ((linePrep input).map (repairLine (medianOf (linePrep input))))))) := by
  simp only [normalizeLines]
  rw [if_neg h2, if_neg h3]

theorem prep_trimEnd_fix (input : List Line) :
    ∀ l ∈ linePrep input, trimEnd l = l := by
  intro l hl
  unfold linePrep at hl
  rcases List.mem_map.mp hl with ⟨l0, -, hl0⟩
  rw [← hl0]
  exact trimEnd_idem l0

theorem prep_no_newline (input : List Line) (h : ∀ l ∈ input, '\n' ∉ l) :
    ∀ l ∈ linePrep input, '\n' ∉ l := by
  intro l hl
  unfold linePrep at hl
  rcases List.mem_map.mp hl with ⟨l0, hmem, hl0⟩
  have h0 : l0 ∈ input := (dropBlankEdges_sublist input).subset hmem
  rw [← hl0]
  intro hn
  exact h l0 h0 ((trimEnd_sublist l0).subset hn)

theorem prep_blank_nil (input : List Line) :
    ∀ l ∈ linePrep input, isBlank l = true → l = [] := by
  intro l hl hb
  unfold linePrep at hl
  rcases List.mem_map.mp hl with ⟨l0, -, hl0⟩
  rw [← hl0] at hb ⊢
  rw [isBlank_trimEnd] at hb
  exact trimEnd_of_blank l0 hb

theorem prep_head_nonblank (input : List Line) (a : Line)
    (h : (linePrep input).head? = some a) : isBlank a = false := by
  unfold linePrep at h
  rw [List.head?_map] at h
  cases hx : (dropBlankEdges input).head? with
  | none =>
    rw [hx] at h
    cases h
  | some b =>
    rw [hx] at h
    have h2 : trimEnd b = a := by simpa using h
    rw [← h2, isBlank_trimEnd]
    exact head?_dropBlankEdges input b hx

theorem prep_getLast_nonblank (input : List Line) (a : Line)
    (h : (linePrep input).getLast? = some a) : isBlank a = false := by
  unfold linePrep at h
  rw [List.getLast?_map] at h
  cases hx : (dropBlankEdges input).getLast? with
  | none =>
    rw [hx] at h
    cases h
  | some b =>
    rw [hx] at h
    have h2 : trimEnd b = a := by simpa using h
    rw [← h2, isBlank_trimEnd]
    exact getLast?_dropBlankEdges input b hx

theorem center2_mem_centersOf (ls : List Line) (l : Line) (hl : l ∈ ls)
    (hnb : isBlank l = false) : center2 l ∈ centersOf ls := by
  unfold centersOf
  exact List.mem_map_of_mem center2 (List.mem_filter.mpr ⟨hl, by rw [hnb]; rfl⟩)

/-! ## Supporting lemmas: the strip-indent stage -/

theorem map_trim_stripIndent (ls : List Line)
    (hblank : ∀ l ∈ ls, isBlank l = true → l = []) :
    (stripIndent ls).map trim = ls.map trim := by
  unfold stripIndent
  cases hm : minIndentOf ls with
  | none => rfl
  | some m =>
    dsimp only
    by_cases h0 : 0 < m
    · rw [if_pos h0, List.map_map]
      exact List.map_congr_left (fun l hl => by
        show trim (l.drop m) = trim l
        cases hb : isBlank l with
        | true => rw [hblank l hl hb, List.drop_nil]
        | false =>
          exact trim_drop l m (Nat.le_trans (minIndent_le ls m hm l hl hb)
            (spaceLeading_le_wsLeading l)))
    · rw [if_neg h0]

theorem stripIndent_eq_self_of_min_zero (ls : List Line)
    (h : minIndentOf ls = some 0) : stripIndent ls = ls := by
  unfold stripIndent
  rw [h]
  dsimp only
  rw [if_neg (by omega)]

theorem minIndentOf_map_sub (f : Line → Line) (ls : List Line) (k : Nat)
    (hb : ∀ l ∈ ls, isBlank (f l) = isBlank l)
    (hs : ∀ l ∈ ls, isBlank l = false → spaceLeading (f l) = spaceLeading l - k) :
    minIndentOf (ls.map f) = (minIndentOf ls).map (fun x => x - k) := by
  unfold minIndentOf
  have hfil : (ls.map f).filter (fun l => !isBlank l) =
      (ls.filter (fun l => !isBlank l)).map f := by
    rw [List.filter_map]
    rw [List.filter_congr (fun l hl => by
      show (!isBlank (f l)) = (!isBlank l)
      rw [hb l hl])]
  rw [hfil, List.map_map]
  have hmap : (ls.filter (fun l => !isBlank l)).map (spaceLeading ∘ f) =
      ((ls.filter (fun l => !isBlank l)).map spaceLeading).map (fun x => x - k) := by
    rw [List.map_map]
    exact List.map_congr_left (fun l hl => by
      rcases List.mem_filter.mp hl with ⟨hmem, hnb⟩
      have hnb' : isBlank l = false := by
        cases hx : isBlank l with
        | false => rfl
        | true => rw [hx] at hnb; cases hnb
      show spaceLeading (f l) = spaceLeading l - k
      exact hs l hmem hnb')
  rw [hmap]
  cases hx : (ls.filter (fun l => !isBlank l)).map spaceLeading with
  | nil => rfl
  | cons x xs =>
    rw [List.map_cons]
    dsimp only
    rw [foldl_min_map_sub xs k x]
    rfl

/-! ## The fixed-point lemma for re-normalization -/

/-- A block whose lines are right-trimmed, newline-free, non-blank at both
edges, with at least three non-blank lines all centered within 3 of the
median and no common indent, is unchanged (after padding to its own
maximal width) by another run of `normalizeArt`. -/
theorem normalizeArt_fix (qs : List Line)
    (hlen : 2 ≤ qs.length)
    (hfix : ∀ l ∈ qs, trimEnd l = l)
    (hnn : ∀ l ∈ qs, '\n' ∉ l)
    (hhead : ∀ a, qs.head? = some a → isBlank a = false)
    (hlast : ∀ a, qs.getLast? = some a → isBlank a = false)
    (hc3 : 3 ≤ (centersOf qs).length)
    (hclose : ∀ c ∈ centersOf qs, Nat.dist c (medianOf qs) ≤ 6)
    (hstrip : stripIndent qs = qs) :
    normalizeArt (joinNl (qs.map (padTo (maxLenOf qs)))) =
      joinNl (qs.map (padTo (maxLenOf qs))) := by
  have hlen5 : (qs.map (padTo (maxLenOf qs))).length = qs.length := List.length_map _ _
  have hne5 : qs.map (padTo (maxLenOf qs)) ≠ [] := by
    intro habs
    rw [habs] at hlen5
    simp only [List.length_nil] at hlen5
    omega
  have hnn5 : ∀ l ∈ qs.map (padTo (maxLenOf qs)), '\n' ∉ l := by
    intro l hl
    rcases List.mem_map.mp hl with ⟨a, ha, hpa⟩
    rw [← hpa]
    intro hmem
    rcases List.mem_append.mp hmem with h1 | h1
    · exact hnn a ha h1
    · have := List.eq_of_mem_replicate h1
      cases this
  have hsplit : splitNl (joinNl (qs.map (padTo (maxLenOf qs)))) =
      qs.map (padTo (maxLenOf qs)) := splitNl_joinNl _ hne5 hnn5
  have hedges : dropBlankEdges (qs.map (padTo (maxLenOf qs))) =
      qs.map (padTo (maxLenOf qs)) := by
    apply dropBlankEdges_eq_self
    · intro a ha
      rw [List.head?_map] at ha
      cases hq : qs.head? with
      | none => rw [hq] at ha; cases ha
      | some b =>
        rw [hq] at ha
        have h2 : padTo (maxLenOf qs) b = a := by simpa using ha
        rw [← h2]
        unfold padTo
        rw [isBlank_pad]
        exact hhead b hq
    · intro a ha
      rw [List.getLast?_map] at ha
      cases hq : qs.getLast? with
      | none => rw [hq] at ha; cases ha
      | some b =>
        rw [hq] at ha
        have h2 : padTo (maxLenOf qs) b = a := by simpa using ha
        rw [← h2]
        unfold padTo
        rw [isBlank_pad]
        exact hlast b hq
  have hprep : linePrep (qs.map (padTo (maxLenOf qs))) = qs := by
    unfold linePrep
    rw [hedges, List.map_map]
    rw [List.map_congr_left (fun l hl => by
      show trimEnd (padTo (maxLenOf qs) l) = id l
      unfold padTo
      rw [trimEnd_pad, hfix l hl]
      rfl)]
    exact List.map_id qs
  have hrepair : qs.map (repairLine (medianOf qs)) = qs := by
    apply map_eq_self_of
    intro l hl
    cases hb : isBlank l with
    | true => exact repairLine_eq_of_blank _ l hb
    | false =>
      exact repairLine_eq_of_close _ l
        (hclose (center2 l) (center2_mem_centersOf qs l hl hb))
  unfold normalizeArt
  rw [hsplit]
  rw [normalizeLines_main _ (by rw [hprep]; omega) (by rw [hprep]; omega)]
  rw [hprep, hrepair, hstrip]

theorem stripIndent_length (ls : List Line) :
    (stripIndent ls).length = ls.length := by
  unfold stripIndent
  cases minIndentOf ls with
  | none => rfl
  | some m =>
    dsimp only
    by_cases h0 : 0 < m
    · rw [if_pos h0, List.length_map]
    · rw [if_neg h0]

theorem no_newline_repairLine (m2 : Nat) (l : Line) (h : '\n' ∉ l) :
    '\n' ∉ repairLine m2 l := by
  by_cases hb : isBlank l = true
  · rw [repairLine_eq_of_blank m2 l hb]
    exact h
  · have hb' : isBlank l = false := by
      cases hx : isBlank l with
      | false => rfl
      | true => exact absurd hx hb
    by_cases hd : 6 < Nat.dist (center2 l) m2
    · rw [repairLine_eq_of_far m2 l hb' hd]
      intro hmem
      rcases List.mem_append.mp hmem with h1 | h1
      · cases List.eq_of_mem_replicate h1
      · exact h ((trim_sublist l).subset h1)
    · rw [repairLine_eq_of_close m2 l (by omega)]
      exact h

theorem mem_of_head?_eq (l : List Line) (a : Line) (h : l.head? = some a) :
    a ∈ l := by
  cases l with
  | nil => cases h
  | cons x xs =>
    have hx : x = a := by simpa using h
    rw [← hx]
    exact List.mem_cons_self x xs

theorem mem_of_getLast?_eq (l : List Line) (a : Line) (h : l.getLast? = some a) :
    a ∈ l := by
  have h2 : l.reverse.head? = some a := by
    rw [List.head?_reverse]
    exact h
  exact List.mem_reverse.mp (mem_of_head?_eq l.reverse a h2)

/-- `normalizeArt_fix` with the strip-indent stage applied first: the
stripped block of a prepared line list is a fixed point of
`normalizeArt` after padding. -/
theorem normalizeArt_fix_strip (ps : List Line)
    (hlen : 2 ≤ ps.length)
    (hfix : ∀ l ∈ ps, trimEnd l = l)
    (hnn : ∀ l ∈ ps, '\n' ∉ l)
    (hblank : ∀ l ∈ ps, isBlank l = true → l = [])
    (hhead : ∀ a, ps.head? = some a → isBlank a = false)
    (hlast : ∀ a, ps.getLast? = some a → isBlank a = false)
    (hc3 : 3 ≤ (centersOf ps).length)
    (hclose : ∀ c ∈ centersOf ps, Nat.dist c (medianOf ps) ≤ 6) :
    normalizeArt (joinNl ((stripIndent ps).map (padTo (maxLenOf (stripIndent ps))))) =
      joinNl ((stripIndent ps).map (padTo (maxLenOf (stripIndent ps)))) := by
  cases hmv : minIndentOf ps with
  | none =>
    have hsi : stripIndent ps = ps := by
      unfold stripIndent
      rw [hmv]
    rw [hsi]
    exact normalizeArt_fix ps hlen hfix hnn hhead hlast hc3 hclose hsi
  | some m =>
    by_cases h0 : 0 < m
    · have hsi : stripIndent ps = ps.map (List.drop m) := by
        unfold stripIndent
        rw [hmv]
        dsimp only
        rw [if_pos h0]
      have hsple : ∀ l ∈ ps, isBlank l = false → m ≤ spaceLeading l :=
        fun l hl hb => minIndent_le ps m hmv l hl hb
      have hwsle : ∀ l ∈ ps, isBlank l = false → m ≤ wsLeading l :=
        fun l hl hb => Nat.le_trans (hsple l hl hb) (spaceLeading_le_wsLeading l)
      have hble : ∀ l ∈ ps, isBlank (l.drop m) = isBlank l := by
        intro l hl
        cases hb : isBlank l with
        | true =>
          rw [hblank l hl hb, List.drop_nil]
          rfl
        | false =>
          rw [isBlank_drop l m (hwsle l hl hb)]
          exact hb
      have hcen : centersOf (ps.map (List.drop m)) =
          (centersOf ps).map (fun x => x - 2 * m) := by
        apply centersOf_map (List.drop m) (fun x => x - 2 * m) ps hble
        intro l hl hb
        unfold center2
        rw [wsLeading_drop l m (hwsle l hl hb), trim_drop l m (hwsle l hl hb)]
        have := hwsle l hl hb
        omega
      have hall : ∀ x ∈ centersOf ps, 2 * m ≤ x :=
        centersOf_ge ps m hsple
      have hmed : medianOf (ps.map (List.drop m)) = medianOf ps - 2 * m :=
        medianOf_eq_sub ps (ps.map (List.drop m)) m hcen hall (by omega)
      have hm2ge : 2 * m ≤ medianOf ps :=
        hall (medianOf ps) (List.mem_of_mem_drop (medianOf_mem ps (by omega)))
      rw [hsi]
      apply normalizeArt_fix (ps.map (List.drop m))
      · rw [List.length_map]
        exact hlen
      · intro l hl
        rcases List.mem_map.mp hl with ⟨a, ha, hpa⟩
        rw [← hpa]
        exact trimEnd_drop a m (hfix a ha)
      · intro l hl
        rcases List.mem_map.mp hl with ⟨a, ha, hpa⟩
        rw [← hpa]
        intro hmem
        exact hnn a ha (List.drop_subset _ _ hmem)
      · intro a ha
        rw [List.head?_map] at ha
        cases hq : ps.head? with
        | none => rw [hq] at ha; cases ha
        | some b =>
          rw [hq] at ha
          have h2 : List.drop m b = a := by simpa using ha
          rw [← h2, hble b (mem_of_head?_eq ps b hq)]
          exact hhead b hq
      · intro a ha
        rw [List.getLast?_map] at ha
        cases hq : ps.getLast? with
        | none => rw [hq] at ha; cases ha
        | some b =>
          rw [hq] at ha
          have h2 : List.drop m b = a := by simpa using ha
          rw [← h2, hble b (mem_of_getLast?_eq ps b hq)]
          exact hlast b hq
      · rw [hcen, List.length_map]
        exact hc3
      · intro c hc'
        rw [hcen] at hc'
        rcases List.mem_map.mp hc' with ⟨c0, hc0, hcc⟩
        rw [← hcc, hmed, natDist_sub_sub c0 (medianOf ps) (2 * m) (hall c0 hc0) hm2ge]
        exact hclose c0 hc0
      · apply stripIndent_eq_self_of_min_zero
        rw [minIndentOf_map_sub (List.drop m) ps m hble
          (fun l hl hb => spaceLeading_drop l m (hsple l hl hb))]
        rw [hmv]
        show some (m - m) = some 0
        rw [Nat.sub_self]
    · have hsi : stripIndent ps = ps := by
        unfold stripIndent
        rw [hmv]
        dsimp only
        rw [if_neg h0]
      rw [hsi]
      exact normalizeArt_fix ps hlen hfix hnn hhead hlast hc3 hclose hsi

theorem linePrep_eq (input : List Line) :
    linePrep input = (dropBlankEdges input).map trimEnd := rfl

theorem no_newline_stripIndent (ls : List Line) (h : ∀ l ∈ ls, '\n' ∉ l) :
    ∀ l ∈ stripIndent ls, '\n' ∉ l := by
  unfold stripIndent
  cases minIndentOf ls with
  | none => exact h
  | some m =>
    dsimp only
    by_cases h0 : 0 < m
    · rw [if_pos h0]
      intro l hl
      rcases List.mem_map.mp hl with ⟨a, ha, hpa⟩
      rw [← hpa]
      intro hmem
      exact h a ha (List.drop_subset _ _ hmem)
    · rw [if_neg h0]
      exact h

/-! ## Theorems about the output normalizer -/

/-- **C1** (counterexample): `normalizeArt` is not idempotent.  On this
five-line input the first pass repairs two outlier lines, which shifts
the median of the remaining lines; on the second pass a line that was
within tolerance (center 7 vs median 10) now deviates by more than 3
from the new median (4.5) and is re-indented, changing the block. -/
theorem c1_counterexample :
    normalizeArt (normalizeArt
        (str "        aaaa\nb\n      cc\n         dd\n                    e")) ≠
      normalizeArt (str "        aaaa\nb\n      cc\n         dd\n                    e") := by
  decide

/-- **C1** (amended): `normalizeArt` is idempotent on every input on
which the centering-repair step does not fire: when, after edge trimming,
fewer than 3 non-blank lines remain, or every non-blank line's center is
within 3 characters of the median.  (In general a repair can shift the
median between passes and re-normalizing changes the block again.) -/
theorem c1_idempotent_of_no_repair (raw : Line)
    (h : (centersOf (prepLines raw)).length < 3 ∨
      ∀ c ∈ centersOf (prepLines raw), Nat.dist c (medianOf (prepLines raw)) ≤ 6) :
    normalizeArt (normalizeArt raw) = normalizeArt raw := by
  have hfix : ∀ l ∈ linePrep (splitNl raw), trimEnd l = l := prep_trimEnd_fix (splitNl raw)
  have hnn : ∀ l ∈ linePrep (splitNl raw), '\n' ∉ l :=
    prep_no_newline (splitNl raw) (mem_splitNl_no_newline raw)
  have hblank := prep_blank_nil (splitNl raw)
  have hhead := prep_head_nonblank (splitNl raw)
  have hlast := prep_getLast_nonblank (splitNl raw)
  by_cases h2 : (linePrep (splitNl raw)).length < 2
  · cases hps : linePrep (splitNl raw) with
    | nil =>
      have hy : normalizeArt raw = [] := by
        unfold normalizeArt
        rw [normalizeLines_small (splitNl raw) h2, hps]
        rfl
      rw [hy]
      rfl
    | cons p ps' =>
      have hps' : ps' = [] := by
        rw [hps] at h2
        simp only [List.length_cons] at h2
        exact List.eq_nil_of_length_eq_zero (by omega)
      subst hps'
      have hpnb : isBlank p = false := hhead p (by rw [hps]; rfl)
      have hpfix : trimEnd p = p := hfix p (by rw [hps]; exact List.mem_cons_self p [])
      have hpnn : '\n' ∉ p := hnn p (by rw [hps]; exact List.mem_cons_self p [])
      have hy : normalizeArt raw = p := by
        unfold normalizeArt
        rw [normalizeLines_small (splitNl raw) h2, hps]
        rfl
      rw [hy]
      have hprep : linePrep [p] = [p] := by
        rw [linePrep_eq]
        rw [dropBlankEdges_eq_self [p] ?hh ?hg]
        case hh =>
          intro a ha
          have h4 : p = a := by simpa using ha
          rw [← h4]
          exact hpnb
        case hg =>
          intro a ha
          have h4 : p = a := by simpa using ha
          rw [← h4]
          exact hpnb
        rw [List.map_cons, hpfix]
        rfl
      unfold normalizeArt
      rw [splitNl_no_newline p hpnn]
      rw [normalizeLines_small [p] (by rw [hprep]; simp)]
      rw [hprep]
      rfl
  · by_cases h3 : (centersOf (linePrep (splitNl raw))).length < 3
    · have hne : linePrep (splitNl raw) ≠ [] := by
        intro habs
        rw [habs] at h2
        exact h2 (by simp)
      have hy : normalizeArt raw = joinNl (linePrep (splitNl raw)) := by
        unfold normalizeArt
        rw [normalizeLines_deg (splitNl raw) h2 h3]
      rw [hy]
      have hsplit : splitNl (joinNl (linePrep (splitNl raw))) = linePrep (splitNl raw) :=
        splitNl_joinNl _ hne hnn
      have hprep2 : linePrep (linePrep (splitNl raw)) = linePrep (splitNl raw) := by
        rw [linePrep_eq (linePrep (splitNl raw))]
        rw [dropBlankEdges_eq_self _ hhead hlast]
        exact map_eq_self_of trimEnd _ hfix
      unfold normalizeArt
      rw [hsplit, normalizeLines_deg _ (by rw [hprep2]; exact h2) (by rw [hprep2]; exact h3),
        hprep2]
    · have hclose : ∀ c ∈ centersOf (linePrep (splitNl raw)),
          Nat.dist c (medianOf (linePrep (splitNl raw))) ≤ 6 := by
        rcases h with h | h
        · exact absurd h h3
        · exact h
      have hrepair : (linePrep (splitNl raw)).map
          (repairLine (medianOf (linePrep (splitNl raw)))) = linePrep (splitNl raw) := by
        apply map_eq_self_of
        intro l hl
        cases hb : isBlank l with
        | true => exact repairLine_eq_of_blank _ l hb
        | false =>
          exact repairLine_eq_of_close _ l
            (hclose (center2 l) (center2_mem_centersOf _ l hl hb))
      have hy : normalizeArt raw = joinNl ((stripIndent (linePrep (splitNl raw))).map
          (padTo (maxLenOf (stripIndent (linePrep (splitNl raw)))))) := by
        unfold normalizeArt
        rw [normalizeLines_main (splitNl raw) h2 h3, hrepair]
      rw [hy]
      exact normalizeArt_fix_strip _ (by omega) hfix hnn hblank hhead hlast (by omega) hclose

/-- Witness for `c1_idempotent_of_no_repair` on a block whose three lines
are already aligned. -/
theorem c1_witness :
    ((centersOf (prepLines (str "abc\nabc\nabc"))).length < 3 ∨
      ∀ c ∈ centersOf (prepLines (str "abc\nabc\nabc")),
        Nat.dist c (medianOf (prepLines (str "abc\nabc\nabc"))) ≤ 6) ∧
    normalizeArt (normalizeArt (str "abc\nabc\nabc")) =
      normalizeArt (str "abc\nabc\nabc") :=
  ⟨Or.inr (by decide),
   c1_idempotent_of_no_repair (str "abc\nabc\nabc") (Or.inr (by decide))⟩

/-- **C2** (counterexample): with fewer than 3 non-blank lines the
padding step is skipped, so the output of `normalizeArt` need not be
rectangular: `"ab\ncdef"` is returned with lines of length 2 and 4. -/
theorem c2_counterexample :
    ¬ (∀ l1 ∈ splitNl (normalizeArt (str "ab\ncdef")),
       ∀ l2 ∈ splitNl (normalizeArt (str "ab\ncdef")), l1.length = l2.length) := by
  decide

/-- **C2** (amended): whenever at least 3 non-blank lines remain after
edge trimming (the main path of `normalizeArt`), every line of the
output has identical length — the padded block is rectangular. -/
theorem c2_rectangular (raw : Line)
    (h3 : 3 ≤ (centersOf (prepLines raw)).length) :
    ∀ l1 ∈ splitNl (normalizeArt raw), ∀ l2 ∈ splitNl (normalizeArt raw),
      l1.length = l2.length := by
  have h3x : 3 ≤ (centersOf (linePrep (splitNl raw))).length := h3
  have h2 : ¬ (linePrep (splitNl raw)).length < 2 := by
    have hle := centersOf_length_le (linePrep (splitNl raw))
    omega
  have h3n : ¬ (centersOf (linePrep (splitNl raw))).length < 3 := by omega
  have hnn := prep_no_newline (splitNl raw) (mem_splitNl_no_newline raw)
  set ls3 := (linePrep (splitNl raw)).map
    (repairLine (medianOf (linePrep (splitNl raw)))) with hls3
  set ls4 := stripIndent ls3 with hls4
  set M := maxLenOf ls4 with hM
  have hy : normalizeArt raw = joinNl (ls4.map (padTo M)) := by
    unfold normalizeArt
    rw [normalizeLines_main (splitNl raw) h2 h3n]
  have hnn3 : ∀ l ∈ ls3, '\n' ∉ l := by
    intro l hl
    rcases List.mem_map.mp hl with ⟨a, ha, hpa⟩
    rw [← hpa]
    exact no_newline_repairLine _ a (hnn a ha)
  have hnn4 : ∀ l ∈ ls4, '\n' ∉ l := no_newline_stripIndent ls3 hnn3
  have hnn5 : ∀ l ∈ ls4.map (padTo M), '\n' ∉ l := by
    intro l hl
    rcases List.mem_map.mp hl with ⟨a, ha, hpa⟩
    rw [← hpa]
    intro hmem
    rcases List.mem_append.mp hmem with h1 | h1
    · exact hnn4 a ha h1
    · cases List.eq_of_mem_replicate h1
  have hlen4 : ls4.length = (linePrep (splitNl raw)).length := by
    rw [hls4, stripIndent_length, hls3, List.length_map]
  have hne5 : ls4.map (padTo M) ≠ [] := by
    intro habs
    have hlp := congrArg List.length habs
    rw [List.length_map, hlen4] at hlp
    simp only [List.length_nil] at hlp
    omega
  have hsplit : splitNl (joinNl (ls4.map (padTo M))) = ls4.map (padTo M) :=
    splitNl_joinNl _ hne5 hnn5
  have hlem : ∀ l ∈ ls4.map (padTo M), l.length = M := by
    intro l hl
    rcases List.mem_map.mp hl with ⟨a, ha, hpa⟩
    rw [← hpa]
    show (a ++ List.replicate (M - a.length) ' ').length = M
    rw [List.length_append, List.length_replicate]
    have hle : a.length ≤ M :=
      le_foldl_max_mem _ 0 a.length (List.mem_map_of_mem List.length ha)
    omega
  rw [hy, hsplit]
  intro l1 hl1 l2 hl2
  rw [hlem l1 hl1, hlem l2 hl2]

/-- Witness for `c2_rectangular` on a three-line block of widths 1, 2, 3:
all output lines are padded to the same length. -/
theorem c2_witness :
    (3 ≤ (centersOf (prepLines (str "a\nbb\nccc"))).length) ∧
    (str "a  ").length = (str "ccc").length :=
  ⟨by decide,
   c2_rectangular (str "a\nbb\nccc") (by decide) (str "a  ") (by decide)
     (str "ccc") (by decide)⟩

/-- **C10** (counterexample): on an all-blank input the claim fails for
the empty representation: the output is the empty string, whose line
list is `[""]`, while the input minus blank edge lines is the empty
sequence. -/
theorem c10_counterexample :
    ¬ ((splitNl (normalizeArt (str " "))).map trim =
        (dropBlankEdges (splitNl (str " "))).map trim) := by
  decide

/-- **C10** (amended): for every input with at least one non-blank line,
the trimmed lines of `normalizeArt`'s output equal the trimmed lines of
the input with leading and trailing blank lines removed: normalization
only edits leading/trailing whitespace of each line and never reorders,
deletes or edits interior content. -/
theorem c10_trimmed_content (raw : Line) (h : dropBlankEdges (splitNl raw) ≠ []) :
    (splitNl (normalizeArt raw)).map trim =
      (dropBlankEdges (splitNl raw)).map trim := by
  have hnn := prep_no_newline (splitNl raw) (mem_splitNl_no_newline raw)
  have hblank := prep_blank_nil (splitNl raw)
  have hpt : (linePrep (splitNl raw)).map trim =
      (dropBlankEdges (splitNl raw)).map trim := by
    rw [linePrep_eq, List.map_map]
    exact List.map_congr_left (fun l _ => trim_trimEnd l)
  have hneprep : linePrep (splitNl raw) ≠ [] := by
    intro habs
    rw [linePrep_eq] at habs
    exact h (List.map_eq_nil_iff.mp habs)
  by_cases h2 : (linePrep (splitNl raw)).length < 2
  · cases hps : linePrep (splitNl raw) with
    | nil => exact absurd hps hneprep
    | cons p ps' =>
      have hps' : ps' = [] := by
        rw [hps] at h2
        simp only [List.length_cons] at h2
        exact List.eq_nil_of_length_eq_zero (by omega)
      subst hps'
      have hpnn : '\n' ∉ p := hnn p (by rw [hps]; exact List.mem_cons_self p [])
      have hy : normalizeArt raw = p := by
        unfold normalizeArt
        rw [normalizeLines_small (splitNl raw) h2, hps]
        rfl
      rw [hy, splitNl_no_newline p hpnn, ← hps, hpt]
  · by_cases h3 : (centersOf (linePrep (splitNl raw))).length < 3
    · have hy : normalizeArt raw = joinNl (linePrep (splitNl raw)) := by
        unfold normalizeArt
        rw [normalizeLines_deg (splitNl raw) h2 h3]
      rw [hy, splitNl_joinNl _ hneprep hnn, hpt]
    · set ls3 := (linePrep (splitNl raw)).map
        (repairLine (medianOf (linePrep (splitNl raw)))) with hls3
      set ls4 := stripIndent ls3 with hls4
      set M := maxLenOf ls4 with hM
      have hy : normalizeArt raw = joinNl (ls4.map (padTo M)) := by
        unfold normalizeArt
        rw [normalizeLines_main (splitNl raw) h2 h3]
      have hnn3 : ∀ l ∈ ls3, '\n' ∉ l := by
        intro l hl
        rcases List.mem_map.mp hl with ⟨a, ha, hpa⟩
        rw [← hpa]
        exact no_newline_repairLine _ a (hnn a ha)
      have hblank3 : ∀ l ∈ ls3, isBlank l = true → l = [] := by
        intro l hl hb
        rcases List.mem_map.mp hl with ⟨a, ha, hpa⟩
        rw [← hpa] at hb ⊢
        rw [isBlank_repairLine] at hb
        rw [hblank a ha hb]
        exact repairLine_eq_of_blank _ [] rfl
      have hnn4 : ∀ l ∈ ls4, '\n' ∉ l := no_newline_stripIndent ls3 hnn3
      have hnn5 : ∀ l ∈ ls4.map (padTo M), '\n' ∉ l := by
        intro l hl
        rcases List.mem_map.mp hl with ⟨a, ha, hpa⟩
        rw [← hpa]
        intro hmem
        rcases List.mem_append.mp hmem with h1 | h1
        · exact hnn4 a ha h1
        · cases List.eq_of_mem_replicate h1
      have hlen4 : ls4.length = (linePrep (splitNl raw)).length := by
        rw [hls4, stripIndent_length, hls3, List.length_map]
      have hne5 : ls4.map (padTo M) ≠ [] := by
        intro habs
        have hlp := congrArg List.length habs
        rw [List.length_map, hlen4] at hlp
        simp only [List.length_nil] at hlp
        omega
      have hsplit : splitNl (joinNl (ls4.map (padTo M))) = ls4.map (padTo M) :=
        splitNl_joinNl _ hne5 hnn5
      have hstep5 : (ls4.map (padTo M)).map trim = ls4.map trim := by
        rw [List.map_map]
        exact List.map_congr_left (fun l _ => by
          show trim (l ++ List.replicate (M - l.length) ' ') = trim l
          rw [trim_pad])
      have hstep4 : ls4.map trim = ls3.map trim := map_trim_stripIndent ls3 hblank3
      have hstep3 : ls3.map trim = (linePrep (splitNl raw)).map trim := by
        rw [hls3, List.map_map]
        exact List.map_congr_left (fun l _ => trim_repairLine _ l)
      rw [hy, hsplit, hstep5, hstep4, hstep3, hpt]

/-- Witness for `c10_trimmed_content` on a block with extra blank edge
lines, interior blank line, indentation and trailing spaces. -/
theorem c10_witness :
    (dropBlankEdges (splitNl (str "\n  ab \n\n   cd\n")) ≠ []) ∧
    (splitNl (normalizeArt (str "\n  ab \n\n   cd\n"))).map trim =
      (dropBlankEdges (splitNl (str "\n  ab \n\n   cd\n"))).map trim :=
  ⟨by decide, c10_trimmed_content (str "\n  ab \n\n   cd\n") (by decide)⟩

/-- **C8** (counterexample): a deviating line is not always re-aligned to
the median.  Here the first line (center 10) deviates from the median of
the rest (0.5) by far more than 3, but the computed indentation
`max(0, round(median - len/2))` clamps at 0, so `normalizeArt` returns
the line unchanged and its center still deviates from the median by more
than 3. -/
theorem c8_counterexample :
    6 < Nat.dist (center2 ((prepLines (str "aaaaaaaaaaaaaaaaaaaa\nb\nb\nb")).headD []))
        (medianOf (prepLines (str "aaaaaaaaaaaaaaaaaaaa\nb\nb\nb"))) ∧
    (splitNl (normalizeArt (str "aaaaaaaaaaaaaaaaaaaa\nb\nb\nb"))).headD [] =
      str "aaaaaaaaaaaaaaaaaaaa" ∧
    6 < Nat.dist (center2 (str "aaaaaaaaaaaaaaaaaaaa"))
        (medianOf ((splitNl (normalizeArt
          (str "aaaaaaaaaaaaaaaaaaaa\nb\nb\nb"))).map trimEnd)) := by
  decide

/-- **C8** (amended): with at least 3 non-blank lines, `normalizeArt`
maps every line through `repairLine` against the median of the non-blank
centers excluding the first, then strips the common indent and pads.  A
non-blank line within 3 of the median is unchanged; a line deviating by
more than 3 has its indentation replaced by
`max(0, round(median - trimmedLen/2))` spaces, which aligns its center to
the median (within half a character) whenever the trimmed length allows a
non-negative indent — otherwise the indent clamps to 0 and the center
stays to the right of the median. -/
theorem c8_repair_with_clamp (raw : Line)
    (h2 : ¬ (prepLines raw).length < 2)
    (h3 : ¬ (centersOf (prepLines raw)).length < 3) :
    normalizeArt raw = joinNl ((stripIndent ((prepLines raw).map
      (repairLine (medianOf (prepLines raw))))).map
      (padTo (maxLenOf (stripIndent ((prepLines raw).map
        (repairLine (medianOf (prepLines raw)))))))) ∧
    ∀ l ∈ prepLines raw, isBlank l = false →
      (Nat.dist (center2 l) (medianOf (prepLines raw)) ≤ 6 →
        repairLine (medianOf (prepLines raw)) l = l) ∧
      (6 < Nat.dist (center2 l) (medianOf (prepLines raw)) →
        repairLine (medianOf (prepLines raw)) l =
          List.replicate ((medianOf (prepLines raw) + 1 - (trim l).length) / 2) ' '
            ++ trim l ∧
        ((trim l).length ≤ medianOf (prepLines raw) + 1 →
          Nat.dist (center2 (repairLine (medianOf (prepLines raw)) l))
            (medianOf (prepLines raw)) ≤ 1)) := by
  constructor
  · have hmain := normalizeLines_main (splitNl raw) h2 h3
    unfold normalizeArt
    rw [hmain]
    rfl
  · intro l hl hb
    refine ⟨fun hle => repairLine_eq_of_close _ l hle,
      fun hgt => ⟨repairLine_eq_of_far _ l hb hgt, fun hlen => ?_⟩⟩
    rw [center2_repairLine_far _ l hb hgt]
    unfold Nat.dist
    omega

/-- Witness for `c8_repair_with_clamp` on the spec's centering-repair
example: line centers [10, 20, 20, 21] (half-units [20, 40, 40, 42],
median 40).  The first line is re-indented so its center lands on the
median (within half a character); a clustered line is left unchanged. -/
theorem c8_witness :
    repairLine (medianOf (prepLines
        (str "        aaaa\n                  aaaa\n                  aaaa\n                   aaaa")))
      (str "        aaaa") =
      List.replicate ((medianOf (prepLines
        (str "        aaaa\n                  aaaa\n                  aaaa\n                   aaaa"))
          + 1 - (trim (str "        aaaa")).length) / 2) ' ' ++ trim (str "        aaaa") ∧
    Nat.dist (center2 (repairLine (medianOf (prepLines
        (str "        aaaa\n                  aaaa\n                  aaaa\n                   aaaa")))
      (str "        aaaa")))
      (medianOf (prepLines
        (str "        aaaa\n                  aaaa\n                  aaaa\n                   aaaa"))) ≤ 1 ∧
    repairLine (medianOf (prepLines
        (str "        aaaa\n                  aaaa\n                  aaaa\n                   aaaa")))
      (str "                  aaaa") = str "                  aaaa" :=
  have h := c8_repair_with_clamp
    (str "        aaaa\n                  aaaa\n                  aaaa\n                   aaaa")
    (by decide) (by decide)
  ⟨((h.2 (str "        aaaa") (by decide) (by decide)).2 (by decide)).1,
   ((h.2 (str "        aaaa") (by decide) (by decide)).2 (by decide)).2 (by decide),
   (h.2 (str "                  aaaa") (by decide) (by decide)).1 (by decide)⟩

end Ascii
